import Mathlib

/-
Verification of the wake-on-demand proxy in `src/server.js`.

The program is a single-file Node.js TCP proxy: on each inbound connection it
reads the first data chunk, extracts a token, classifies the connection
(empty token / server-list ping / real attempt), consults a health endpoint,
and — guarded by the shared mutable pair `restarting` / `lastWake` — triggers
a restart of the backing deployment through the Railway GraphQL API.

The embedding has two layers:

1. Pure wrappers for the three outbound HTTP round trips
   (`isServerRunning`, `fetchLatestDeployment`, `restartDeployment`), each a
   function of the fetch outcome (transport error / HTTP response + body).
   Functions without their own try/catch return `Except Unit _`, where
   `Except.error ()` models a thrown exception.

2. A small-step event-loop machine (`step`): JavaScript runs each code
   segment between `await` points atomically, so a connection handler is a
   sequence of atomic segments (connection arrival & classification; health
   result; deployment-query result; restart result), interleaved with clock
   ticks and `setTimeout` firings. The adversary chooses the event list
   (arrival order, async outcomes, timing), and theorems quantify over all
   event lists.
-/

namespace McProxy

/-- Cooldown between wake attempts, in milliseconds (`COOLDOWN_MS` in `src/server.js`). -/
def COOLDOWN_MS : Nat := 60000

/-- TCP port the proxy listens on (`PORT` in `src/server.js`). -/
def PORT : Nat := 25565

/-- A deployment handle as returned by the Railway GraphQL API: the fields
`id` and `staticUrl` selected by `fetchLatestDeployment`. -/
structure DeploymentRef where
  id : String
  staticUrl : String
deriving DecidableEq

/-- Body of a GraphQL HTTP response as seen after `res.json()`:
either malformed JSON (so `res.json()` throws), or a parsed payload with an
`errors` field (modelled as present-or-not) and the `data.deployments.edges`
path (modelled as `none` when any link of the path is missing, in which case
the JavaScript property access throws a TypeError). -/
inductive GqlBody where
  | malformed : GqlBody
  | payload (errors : Bool) (edges : Option (List DeploymentRef)) : GqlBody
deriving DecidableEq

/-- Body of the health endpoint response: malformed JSON (so `res.json()`
throws), or parsed JSON whose optional `status` field is the given value. -/
inductive HealthBody where
  | malformed : HealthBody
  | payload (status : Option String) : HealthBody
deriving DecidableEq

/-- Outcome of one `fetch` round trip: a transport error (the promise
rejects), or an HTTP response with success flag `ok` (`res.ok`) and a body. -/
inductive FetchResult (β : Type) where
  | netError : FetchResult β
  | response (ok : Bool) (body : β) : FetchResult β
deriving DecidableEq

/-- `isServerRunning` from `src/server.js` (lines 29-55): its own try/catch
makes it total. It returns `false` on a transport error or a non-2xx status
or a malformed body, and `true` whenever the status is 2xx and the body
parses — the parsed `status` field is only logged, never used for the
decision. -/
def isServerRunning : FetchResult HealthBody → Bool
  | .netError => false
  | .response ok body =>
    if ok then
      match body with
      | .malformed => false
      | .payload _ => true
    else false

/-- `fetchLatestDeployment` from `src/server.js` (lines 58-98). It has no
try/catch: a transport error, a malformed body, or a missing
`data.data.deployments.edges` path throws (`Except.error ()`). A GraphQL
`errors` payload or an empty edge list returns `none`; otherwise the first
edge's node is returned. Note that `res.ok` is never consulted. -/
def fetchLatestDeployment : FetchResult GqlBody → Except Unit (Option DeploymentRef)
  | .netError => .error ()
  | .response _ body =>
    match body with
    | .malformed => .error ()
    | .payload errors edges =>
      if errors then .ok none
      else
        match edges with
        | none => .error ()
        | some [] => .ok none
        | some (e :: _) => .ok (some e)

/-- `restartDeployment` from `src/server.js` (lines 101-125). No try/catch:
transport errors and malformed bodies throw; a GraphQL `errors` payload
returns `false`; otherwise `true`. `res.ok` is never consulted. -/
def restartDeployment : FetchResult GqlBody → Except Unit Bool
  | .netError => .error ()
  | .response _ body =>
    match body with
    | .malformed => .error ()
    | .payload errors _ => if errors then .ok false else .ok true

/-- JavaScript `\w`: ASCII letters, digits and underscore (`/[^\w]/g`). -/
def isWordChar (c : Char) : Bool := c.isAlphanum || c == '_'

/-- `data.toString("utf8").replace(/[^\w]/g, "")` (line 131): keep only the
word characters of the first chunk. -/
def extractToken (chunk : List Char) : List Char := chunk.filter isWordChar

/-- Whether `sub` is an initial segment of `l`. -/
def startsWith : List Char → List Char → Bool
  | [], _ => true
  | _ :: _, [] => false
  | a :: as, b :: bs => a == b && startsWith as bs

/-- Whether `sub` occurs contiguously inside `l` (JavaScript `includes`). -/
def containsSub (sub : List Char) : List Char → Bool
  | [] => sub.isEmpty
  | c :: rest => startsWith sub (c :: rest) || containsSub sub rest

/-- The status-probe marker `"MCPingHost"` (line 138). -/
def probeMarker : List Char := ['M', 'C', 'P', 'i', 'n', 'g', 'H', 'o', 's', 't']

/-- Classification of the first chunk (lines 131-142): empty token — close
silently; token containing the probe marker — log and close; otherwise a
real connection attempt with the extracted token. -/
inductive ConnAction where
  | closeSilent : ConnAction
  | probe : ConnAction
  | proceed (token : List Char) : ConnAction
deriving DecidableEq

/-- Classify the first data chunk of a connection, as lines 131-142 do. -/
def classify (chunk : List Char) : ConnAction :=
  let username := extractToken chunk
  if username.isEmpty then .closeSilent
  else if containsSub probeMarker username then .probe
  else .proceed username

/-- Response strings written by the connection handler. -/
def onlineMsg : String := "§eServer is already online, please join!\n"

/-- Response for a wake already in flight or within cooldown (line 154). -/
def startingMsg : String := "§eServer is starting... please wait.\n"

/-- Response when no deployment is found (line 164). -/
def noDeployMsg : String := "§cError: No deployment found.\n"

/-- Response after a successful restart call (line 173). -/
def wakeOkMsg : String := "§eServer is starting... please try again in ~30s.\n"

/-- Response after a failed restart call (line 175). -/
def wakeFailMsg : String := "§cError starting server, try again later.\n"

/-- Where a connection handler's coroutine stands: awaiting the health
check, awaiting the deployment query (the wake initiator), awaiting the
restart mutation, or finished with the response text written to the socket
(`none` = `socket.end()` with no bytes). -/
inductive Phase where
  | awaitingHealth : Phase
  | awaitingDeploy : Phase
  | awaitingRestart (depId : String) : Phase
  | done (resp : Option String) : Phase
deriving DecidableEq

/-- Observable control-plane events recorded by the machine: a non-probe
connection beginning its handling, a connection reaching step 3 (setting the
lock and invoking `fetchLatestDeployment`), and a connection invoking
`restartDeployment`. Each carries the task id and the clock value. -/
inductive Entry where
  | arrival (tid t : Nat) : Entry
  | initiation (tid t : Nat) : Entry
  | restartCall (tid t : Nat) : Entry
deriving DecidableEq

/-- The task id an entry belongs to. -/
def entryTid : Entry → Nat
  | .arrival tid _ => tid
  | .initiation tid _ => tid
  | .restartCall tid _ => tid

/-- Global state of the event-loop machine: the clock (`Date.now()`), the
two shared mutable variables `restarting` and `lastWake`, the per-task
handler phases, the pending `setTimeout` deadlines (absolute fire times of
scheduled lock releases), and the event log. -/
structure Sys where
  now : Nat
  restarting : Bool
  lastWake : Nat
  tasks : Nat → Option Phase
  timers : List Nat
  log : List Entry

/-- Initial state: `restarting = false`, `lastWake = 0` (lines 24-25). -/
def initSys : Sys :=
  { now := 0, restarting := false, lastWake := 0, tasks := fun _ => none,
    timers := [], log := [] }

/-- Update one task's phase. -/
def setTask (f : Nat → Option Phase) (tid : Nat) (p : Phase) : Nat → Option Phase :=
  fun t => if t = tid then some p else f t

/-- One atomic event of the event loop: the clock advancing (firing any due
`setTimeout`), a connection's first data chunk being handled, or one of the
three async round trips resolving for a given task with a given fetch
outcome. Events that do not match the task's phase are no-ops, so every
event list denotes a possible schedule. -/
inductive Ev where
  | tick (d : Nat) : Ev
  | conn (tid : Nat) (chunk : List Char) : Ev
  | healthRes (tid : Nat) (r : FetchResult HealthBody) : Ev
  | deployRes (tid : Nat) (r : FetchResult GqlBody) : Ev
  | restartRes (tid : Nat) (r : FetchResult GqlBody) : Ev

/-- Small-step transition of the machine; each case is one atomic segment of
`src/server.js` lines 128-188 (plus clock/timer bookkeeping). -/
def step (s : Sys) : Ev → Sys
  | .tick d =>
    let now2 := s.now + d
    { s with
      now := now2,
      restarting := if s.timers.any (fun due => decide (due ≤ now2)) then false else s.restarting,
      timers := s.timers.filter (fun due => decide (now2 < due)) }
  | .conn tid chunk =>
    match s.tasks tid with
    | some _ => s
    | none =>
      match classify chunk with
      | .closeSilent => { s with tasks := setTask s.tasks tid (.done none) }
      | .probe => { s with tasks := setTask s.tasks tid (.done none) }
      | .proceed _ =>
        { s with tasks := setTask s.tasks tid .awaitingHealth,
                 log := .arrival tid s.now :: s.log }
  | .healthRes tid r =>
    match s.tasks tid with
    | some .awaitingHealth =>
      if isServerRunning r then
        { s with tasks := setTask s.tasks tid (.done (some onlineMsg)) }
      else if s.restarting = true ∨ s.now - s.lastWake < COOLDOWN_MS then
        { s with tasks := setTask s.tasks tid (.done (some startingMsg)) }
      else
        { s with restarting := true, lastWake := s.now,
                 tasks := setTask s.tasks tid .awaitingDeploy,
                 log := .initiation tid s.now :: s.log }
    | _ => s
  | .deployRes tid r =>
    match s.tasks tid with
    | some .awaitingDeploy =>
      match fetchLatestDeployment r with
      | .error _ => { s with tasks := setTask s.tasks tid (.done none) }
      | .ok none =>
        { s with restarting := false,
                 tasks := setTask s.tasks tid (.done (some noDeployMsg)) }
      | .ok (some ref) =>
        { s with tasks := setTask s.tasks tid (.awaitingRestart ref.id),
                 log := .restartCall tid s.now :: s.log }
    | _ => s
  | .restartRes tid r =>
    match s.tasks tid with
    | some (.awaitingRestart _) =>
      match restartDeployment r with
      | .error _ => { s with tasks := setTask s.tasks tid (.done none) }
      | .ok b =>
        { s with tasks := setTask s.tasks tid
                   (.done (some (if b then wakeOkMsg else wakeFailMsg))),
                 timers := (s.now + COOLDOWN_MS) :: s.timers }
    | _ => s

/-- Run the machine from a given state over an event list. -/
def runFrom (s : Sys) (evs : List Ev) : Sys := evs.foldl step s

/-- Run the machine from the initial state. -/
def runEvs (evs : List Ev) : Sys := runFrom initSys evs

/-- Progress rank of a task: phases only ever move to a strictly larger
rank, and a task that has reached step 3 has rank at least 2. -/
def rank : Option Phase → Nat
  | none => 0
  | some .awaitingHealth => 1
  | some .awaitingDeploy => 2
  | some (.awaitingRestart _) => 3
  | some (.done _) => 4

/-- A task is mid-wake: it holds the lock and is awaiting a Deployment
Controller round trip. -/
def isActive : Option Phase → Bool
  | some .awaitingDeploy => true
  | some (.awaitingRestart _) => true
  | _ => false

/-- Invariant of all reachable machine states. -/
structure Inv (s : Sys) : Prop where
  lw_le_now : s.lastWake ≤ s.now
  init_le_lw : ∀ tid t, Entry.initiation tid t ∈ s.log → t ≤ s.lastWake
  active_lock : ∀ tid, isActive (s.tasks tid) = true →
    s.restarting = true ∧ s.timers = []
  timers_lock : s.timers ≠ [] →
    s.restarting = true ∧ ∀ tid, isActive (s.tasks tid) = false
  timers_len : s.timers.length ≤ 1
  active_unique : ∀ tid1 tid2, isActive (s.tasks tid1) = true →
    isActive (s.tasks tid2) = true → tid1 = tid2
  init_rank : ∀ tid t, Entry.initiation tid t ∈ s.log → 2 ≤ rank (s.tasks tid)
  rcall_rank : ∀ tid t, Entry.restartCall tid t ∈ s.log → 3 ≤ rank (s.tasks tid)
  arr_rank : ∀ tid t, Entry.arrival tid t ∈ s.log → 1 ≤ rank (s.tasks tid)
  active_entry : ∀ tid, isActive (s.tasks tid) = true →
    Entry.initiation tid s.lastWake ∈ s.log

/-- State of the wake lock between the scheduling of the deferred release
and its deadline `due`: the lock is held, exactly that one timer is
pending, no task is mid-wake, and the deadline is in the future. -/
def Jlock (due : Nat) (s : Sys) : Prop :=
  s.restarting = true ∧ s.timers = [due] ∧
  (∀ tid, isActive (s.tasks tid) = false) ∧ s.now < due

/-- Claim C1 as stated: once a connection passes the cooldown check and sets
`inFlight = true` and `lastWakeAt = now` (recorded as an `initiation` entry
with timestamp `tA`), no later connection whose handling starts (its `conn`
event occurs) within `COOLDOWN` of that instant, or while `inFlight` is
still true, ever reaches the Deployment Controller calls. -/
def claimC1 : Prop :=
  ∀ (pre post : List Ev) (tidA tidB tA : Nat) (chunk tok : List Char),
    tidA ≠ tidB →
    Entry.initiation tidA tA ∈ (runEvs pre).log →
    ((runEvs pre).now - tA < COOLDOWN_MS ∨ (runEvs pre).restarting = true) →
    (runEvs pre).tasks tidB = none →
    classify chunk = ConnAction.proceed tok →
    ∀ tB, Entry.initiation tidB tB ∉ (runEvs (pre ++ Ev.conn tidB chunk :: post)).log

/-- Claim C2 as stated: after a wake attempt in which `latestDeployment`
returns none, `inFlight` is reset immediately, and a second non-probe
connection handled immediately afterwards (health still not running) again
reaches step 3, i.e. ends up awaiting `latestDeployment` itself. -/
def claimC2 : Prop :=
  ∀ (pre : List Ev) (tidA tidB : Nat) (rA : FetchResult GqlBody)
    (rB : FetchResult HealthBody) (chunk tok : List Char),
    (runEvs pre).tasks tidA = some Phase.awaitingDeploy →
    fetchLatestDeployment rA = Except.ok none →
    (runEvs pre).tasks tidB = none →
    isServerRunning rB = false →
    classify chunk = ConnAction.proceed tok →
    (step (runEvs pre) (Ev.deployRes tidA rA)).restarting = false ∧
    (step (step (step (runEvs pre) (Ev.deployRes tidA rA)) (Ev.conn tidB chunk))
        (Ev.healthRes tidB rB)).tasks tidB = some Phase.awaitingDeploy

/-- Claim C7 as stated: in the no-deployment path only `inFlight` is reset,
so after such a wake attempt a second connection that arrives (its `conn`
event occurs) within `COOLDOWN` of the attempt's start — the timestamp
held in `lastWakeAt` — never reaches the Deployment Controller calls. -/
def claimC7 : Prop :=
  ∀ (pre mid post : List Ev) (tidA tidB : Nat) (rA : FetchResult GqlBody)
    (chunk tok : List Char),
    (runEvs pre).tasks tidA = some Phase.awaitingDeploy →
    fetchLatestDeployment rA = Except.ok none →
    (runFrom (step (runEvs pre) (Ev.deployRes tidA rA)) mid).tasks tidB = none →
    classify chunk = ConnAction.proceed tok →
    (runFrom (step (runEvs pre) (Ev.deployRes tidA rA)) mid).now -
      (runEvs pre).lastWake < COOLDOWN_MS →
    ∀ tB, Entry.initiation tidB tB ∉
      (runFrom (step (runFrom (step (runEvs pre) (Ev.deployRes tidA rA)) mid)
        (Ev.conn tidB chunk)) post).log

/-- Claim C3 as stated: for every transport error, non-2xx response, or
error payload, `fetchLatestDeployment` returns `none` and
`restartDeployment` returns `false` (neither ever throws past its
boundary). -/
def claimC3 : Prop :=
  (fetchLatestDeployment .netError = Except.ok none) ∧
  (restartDeployment .netError = Except.ok false) ∧
  (∀ b, fetchLatestDeployment (.response false b) = Except.ok none) ∧
  (∀ b, restartDeployment (.response false b) = Except.ok false) ∧
  (∀ ok e, fetchLatestDeployment (.response ok (.payload true e)) = Except.ok none) ∧
  (∀ ok e, restartDeployment (.response ok (.payload true e)) = Except.ok false)

/-- The four required configuration values, each absent (`none`) or the
string value of the environment variable. -/
structure Env where
  projectId : Option String
  environmentId : Option String
  serviceId : Option String
  railwayApiToken : Option String

/-- JavaScript truthiness of `process.env.X` (a string or `undefined`):
`undefined` and the empty string are falsy. -/
def truthy : Option String → Bool
  | none => false
  | some v => !(v == "")

/-- Outcome of process startup: exit with a code, or start the listener. -/
inductive Startup where
  | exitWith (code : Nat) : Startup
  | listen (port : Nat) : Startup
deriving DecidableEq

/-- The startup configuration check of `src/server.js` lines 16-19 followed
by `server.listen(PORT)`: if any required value is falsy, `process.exit(1)`;
otherwise the listener starts. -/
def startup (e : Env) : Startup :=
  if !truthy e.projectId || !truthy e.environmentId || !truthy e.serviceId
      || !truthy e.railwayApiToken then
    .exitWith 1
  else
    .listen PORT

/-- Claim C10 as stated: the process exits non-zero when any of the four
required values is absent, and the listener starts when all four are
present. -/
def claimC10 : Prop :=
  (∀ e : Env,
    (e.projectId = none ∨ e.environmentId = none ∨ e.serviceId = none ∨
      e.railwayApiToken = none) →
    ∃ c, startup e = Startup.exitWith c ∧ c ≠ 0) ∧
  (∀ e : Env, e.projectId.isSome → e.environmentId.isSome →
    e.serviceId.isSome → e.railwayApiToken.isSome →
    startup e = Startup.listen PORT)

/-- A failing health check (transport error): the server is not running. -/
def hDown : FetchResult HealthBody := .netError

/-- A deployment query that parses cleanly but finds no deployments. -/
def rEmpty : FetchResult GqlBody := .response true (.payload false (some []))

/-- A deployment query returning one deployment `d1`. -/
def rD1 : FetchResult GqlBody := .response true (.payload false (some [⟨"d1", "url1"⟩]))

/-- First chunk of a plain player connection. -/
def chunkA : List Char := ['P', 'l', 'a', 'y', 'e', 'r']

/-- First chunk of a second plain player connection. -/
def chunkB : List Char := ['S', 't', 'e', 'v', 'e']

/-- A healthy health-check response (2xx, well-formed body). -/
def hUp : FetchResult HealthBody := .response true (.payload (some "active"))

/-- A first chunk with no word characters: its extracted token is empty. -/
def chunkEmpty : List Char := ['!', '?']

/-- Concrete schedule refuting C1: task 1 initiates a wake at time 100000;
task 2's handling starts while the wake is in flight (and within `COOLDOWN`
of the initiation); the wake finds no deployment, releasing the lock early;
after the cooldown expires task 2's health check resolves and task 2
reaches step 3. -/
def cex1pre : List Ev := [.tick 100000, .conn 1 chunkA, .healthRes 1 hDown]

/-- Continuation of the C1 counterexample schedule after task 2 arrives. -/
def cex1post : List Ev := [.deployRes 1 rEmpty, .tick 60000, .healthRes 2 hDown]

/-- Prefix for the C2 counterexample and several witnesses: the clock is
past the initial cooldown, task 1 has initiated a wake at time 100000 and
awaits the deployment query. -/
def pre2 : List Ev := [.tick 100000, .conn 1 chunkA, .healthRes 1 hDown]

/-- Prefix for the C4 witness: task 1 has reached the restart call. -/
def pre4 : List Ev := [.tick 100000, .conn 1 chunkA, .healthRes 1 hDown, .deployRes 1 rD1]


/-! ## Basic lemmas about the machine -/

theorem setTask_self (f : Nat → Option Phase) (tid : Nat) (p : Phase) :
    setTask f tid p tid = some p := by simp [setTask]

theorem setTask_ne (f : Nat → Option Phase) (tid tid' : Nat) (p : Phase)
    (h : tid' ≠ tid) : setTask f tid p tid' = f tid' := by simp [setTask, h]

theorem now_mono_step (s : Sys) (ev : Ev) : s.now ≤ (step s ev).now := by
  cases ev <;> simp only [step] <;> (repeat' split) <;> simp

theorem now_mono_fold (s : Sys) (evs : List Ev) : s.now ≤ (runFrom s evs).now := by
  induction evs generalizing s with
  | nil => exact Nat.le_refl _
  | cons e rest ih =>
    exact Nat.le_trans (now_mono_step s e) (ih (step s e))

theorem log_mono_step (s : Sys) (ev : Ev) (e : Entry) (h : e ∈ s.log) :
    e ∈ (step s ev).log := by
  cases ev <;> simp only [step] <;> (repeat' split) <;> simp [h]

end McProxy

namespace McProxy

theorem log_new_step (s : Sys) (ev : Ev) (e : Entry) (he : e ∈ (step s ev).log) :
    e ∈ s.log ∨
    (∃ tid, (e = .arrival tid s.now ∧ s.tasks tid = none) ∨
            (e = .initiation tid s.now ∧ s.tasks tid = some .awaitingHealth) ∨
            (e = .restartCall tid s.now ∧ s.tasks tid = some .awaitingDeploy)) := by
  cases ev with
  | tick d => left; simpa [step] using he
  | conn tid chunk =>
    simp only [step] at he
    rcases h : s.tasks tid with _ | p
    · rw [h] at he
      rcases hc : classify chunk with _ | _ | tok <;> rw [hc] at he <;> simp at he
      · exact Or.inl he
      · exact Or.inl he
      · rcases he with rfl | he
        · exact Or.inr ⟨tid, Or.inl ⟨rfl, h⟩⟩
        · exact Or.inl he
    · rw [h] at he; exact Or.inl he
  | healthRes tid r =>
    simp only [step] at he
    rcases h : s.tasks tid with _ | p
    · rw [h] at he; exact Or.inl he
    · rw [h] at he
      cases p with
      | awaitingHealth =>
        by_cases hr : isServerRunning r = true
        · simp [hr] at he; exact Or.inl he
        · rw [if_neg (by simpa using hr)] at he
          by_cases hcool : s.restarting = true ∨ s.now - s.lastWake < COOLDOWN_MS
          · rw [if_pos hcool] at he; exact Or.inl he
          · rw [if_neg hcool] at he
            simp at he
            rcases he with rfl | he
            · exact Or.inr ⟨tid, Or.inr (Or.inl ⟨rfl, h⟩)⟩
            · exact Or.inl he
      | awaitingDeploy => exact Or.inl he
      | awaitingRestart d => exact Or.inl he
      | done m => exact Or.inl he
  | deployRes tid r =>
    simp only [step] at he
    rcases h : s.tasks tid with _ | p
    · rw [h] at he; exact Or.inl he
    · rw [h] at he
      cases p with
      | awaitingDeploy =>
        rcases hf : fetchLatestDeployment r with u | o
        · rw [hf] at he; exact Or.inl he
        · rcases o with _ | ref <;> rw [hf] at he
          · exact Or.inl he
          · simp at he
            rcases he with rfl | he
            · exact Or.inr ⟨tid, Or.inr (Or.inr ⟨rfl, h⟩)⟩
            · exact Or.inl he
      | awaitingHealth => exact Or.inl he
      | awaitingRestart d => exact Or.inl he
      | done m => exact Or.inl he
  | restartRes tid r =>
    simp only [step] at he
    rcases h : s.tasks tid with _ | p
    · rw [h] at he; exact Or.inl he
    · rw [h] at he
      cases p with
      | awaitingRestart d =>
        rcases hf : restartDeployment r with u | b <;> rw [hf] at he <;> exact Or.inl he
      | awaitingHealth => exact Or.inl he
      | awaitingDeploy => exact Or.inl he
      | done m => exact Or.inl he

theorem done_stable_step (s : Sys) (ev : Ev) (tid : Nat) (m : Option String)
    (h : s.tasks tid = some (.done m)) : (step s ev).tasks tid = some (.done m) := by
  cases ev with
  | tick d => simpa [step] using h
  | conn tid2 chunk =>
    simp only [step]
    rcases h2 : s.tasks tid2 with _ | p
    · have hne : tid ≠ tid2 := by rintro rfl; rw [h] at h2; cases h2
      rcases hc : classify chunk with _ | _ | tok <;> simp [setTask, hne, h]
    · exact h
  | healthRes tid2 r =>
    simp only [step]
    rcases h2 : s.tasks tid2 with _ | p
    · exact h
    · cases p with
      | awaitingHealth =>
        have hne : tid ≠ tid2 := by
          rintro rfl; rw [h] at h2; exact Phase.noConfusion (Option.some.inj h2)
        repeat' split
        all_goals simp [setTask, hne, h]
      | awaitingDeploy => exact h
      | awaitingRestart d => exact h
      | done m2 => exact h
  | deployRes tid2 r =>
    simp only [step]
    rcases h2 : s.tasks tid2 with _ | p
    · exact h
    · cases p with
      | awaitingDeploy =>
        have hne : tid ≠ tid2 := by
          rintro rfl; rw [h] at h2; exact Phase.noConfusion (Option.some.inj h2)
        rcases hf : fetchLatestDeployment r with u | o
        · simp [setTask, hne, h]
        · rcases o with _ | ref <;> simp [setTask, hne, h]
      | awaitingHealth => exact h
      | awaitingRestart d => exact h
      | done m2 => exact h
  | restartRes tid2 r =>
    simp only [step]
    rcases h2 : s.tasks tid2 with _ | p
    · exact h
    · cases p with
      | awaitingRestart d =>
        have hne : tid ≠ tid2 := by
          rintro rfl; rw [h] at h2; exact Phase.noConfusion (Option.some.inj h2)
        rcases hf : restartDeployment r with u | b <;> simp [setTask, hne, h]
      | awaitingHealth => exact h
      | awaitingDeploy => exact h
      | done m2 => exact h

theorem done_stable_fold (s : Sys) (evs : List Ev) (tid : Nat) (m : Option String)
    (h : s.tasks tid = some (.done m)) :
    (runFrom s evs).tasks tid = some (.done m) := by
  induction evs generalizing s with
  | nil => exact h
  | cons e rest ih => exact ih (step s e) (done_stable_step s e tid m h)

theorem rank_mono_step (s : Sys) (ev : Ev) (tid : Nat) :
    rank (s.tasks tid) ≤ rank ((step s ev).tasks tid) := by
  cases ev with
  | tick d => simp [step]
  | conn tid2 chunk =>
    simp only [step]
    rcases h2 : s.tasks tid2 with _ | p
    · rcases hc : classify chunk with _ | _ | tok <;>
        (by_cases hne : tid = tid2
         · subst hne; simp [setTask, h2, rank]
         · simp [setTask, hne])
    · exact Nat.le_refl _
  | healthRes tid2 r =>
    simp only [step]
    rcases h2 : s.tasks tid2 with _ | p
    · exact Nat.le_refl _
    · cases p with
      | awaitingHealth =>
        repeat' split
        all_goals
          (by_cases hne : tid = tid2
           · subst hne; simp [setTask, h2, rank]
           · simp [setTask, hne])
      | awaitingDeploy => exact Nat.le_refl _
      | awaitingRestart d => exact Nat.le_refl _
      | done m2 => exact Nat.le_refl _
  | deployRes tid2 r =>
    simp only [step]
    rcases h2 : s.tasks tid2 with _ | p
    · exact Nat.le_refl _
    · cases p with
      | awaitingDeploy =>
        rcases hf : fetchLatestDeployment r with u | o
        · by_cases hne : tid = tid2
          · subst hne; simp [setTask, h2, rank]
          · simp [setTask, hne]
        · rcases o with _ | ref <;>
            (by_cases hne : tid = tid2
             · subst hne; simp [setTask, h2, rank]
             · simp [setTask, hne])
      | awaitingHealth => exact Nat.le_refl _
      | awaitingRestart d => exact Nat.le_refl _
      | done m2 => exact Nat.le_refl _
  | restartRes tid2 r =>
    simp only [step]
    rcases h2 : s.tasks tid2 with _ | p
    · exact Nat.le_refl _
    · cases p with
      | awaitingRestart d =>
        rcases hf : restartDeployment r with u | b <;>
          (by_cases hne : tid = tid2
           · subst hne; simp [setTask, h2, rank]
           · simp [setTask, hne])
      | awaitingHealth => exact Nat.le_refl _
      | awaitingDeploy => exact Nat.le_refl _
      | done m2 => exact Nat.le_refl _

/-! ## Characterisation of each step branch -/

theorem step_conn_skip (s : Sys) (tid : Nat) (chunk : List Char) (p : Phase)
    (h2 : s.tasks tid = some p) : step s (.conn tid chunk) = s := by
  simp only [step]; rw [h2]

theorem step_conn_silent (s : Sys) (tid : Nat) (chunk : List Char)
    (h2 : s.tasks tid = none) (hc : classify chunk = ConnAction.closeSilent) :
    step s (.conn tid chunk) =
      { s with tasks := setTask s.tasks tid (.done none) } := by
  simp only [step]; rw [h2, hc]

theorem step_conn_probe (s : Sys) (tid : Nat) (chunk : List Char)
    (h2 : s.tasks tid = none) (hc : classify chunk = ConnAction.probe) :
    step s (.conn tid chunk) =
      { s with tasks := setTask s.tasks tid (.done none) } := by
  simp only [step]; rw [h2, hc]

theorem step_conn_proceed (s : Sys) (tid : Nat) (chunk tok : List Char)
    (h2 : s.tasks tid = none) (hc : classify chunk = ConnAction.proceed tok) :
    step s (.conn tid chunk) =
      { s with tasks := setTask s.tasks tid .awaitingHealth,
               log := .arrival tid s.now :: s.log } := by
  simp only [step]; rw [h2, hc]

theorem step_health_skip (s : Sys) (tid : Nat) (r : FetchResult HealthBody)
    (h2 : s.tasks tid ≠ some Phase.awaitingHealth) :
    step s (.healthRes tid r) = s := by
  simp only [step]

theorem step_health_online (s : Sys) (tid : Nat) (r : FetchResult HealthBody)
    (h2 : s.tasks tid = some Phase.awaitingHealth) (hr : isServerRunning r = true) :
    step s (.healthRes tid r) =
      { s with tasks := setTask s.tasks tid (.done (some onlineMsg)) } := by
  simp only [step]; rw [h2]; simp [hr]

theorem step_health_starting (s : Sys) (tid : Nat) (r : FetchResult HealthBody)
    (h2 : s.tasks tid = some Phase.awaitingHealth) (hr : isServerRunning r = false)
    (hcool : s.restarting = true ∨ s.now - s.lastWake < COOLDOWN_MS) :
    step s (.healthRes tid r) =
      { s with tasks := setTask s.tasks tid (.done (some startingMsg)) } := by
  simp only [step]; rw [h2]; simp [hr, hcool]

theorem step_health_initiate (s : Sys) (tid : Nat) (r : FetchResult HealthBody)
    (h2 : s.tasks tid = some Phase.awaitingHealth) (hr : isServerRunning r = false)
    (hcool : ¬(s.restarting = true ∨ s.now - s.lastWake < COOLDOWN_MS)) :
    step s (.healthRes tid r) =
      { s with restarting := true, lastWake := s.now,
               tasks := setTask s.tasks tid .awaitingDeploy,
               log := .initiation tid s.now :: s.log } := by
  simp only [step]; rw [h2]; simp [hr, hcool]

theorem step_deploy_skip (s : Sys) (tid : Nat) (r : FetchResult GqlBody)
    (h2 : s.tasks tid ≠ some Phase.awaitingDeploy) :
    step s (.deployRes tid r) = s := by
  simp only [step]

theorem step_deploy_throw (s : Sys) (tid : Nat) (r : FetchResult GqlBody)
    (h2 : s.tasks tid = some Phase.awaitingDeploy)
    (hf : fetchLatestDeployment r = .error ()) :
    step s (.deployRes tid r) =
      { s with tasks := setTask s.tasks tid (.done none) } := by
  simp only [step]; rw [h2, hf]

theorem step_deploy_none (s : Sys) (tid : Nat) (r : FetchResult GqlBody)
    (h2 : s.tasks tid = some Phase.awaitingDeploy)
    (hf : fetchLatestDeployment r = .ok none) :
    step s (.deployRes tid r) =
      { s with restarting := false,
               tasks := setTask s.tasks tid (.done (some noDeployMsg)) } := by
  simp only [step]; rw [h2, hf]

theorem step_deploy_found (s : Sys) (tid : Nat) (r : FetchResult GqlBody)
    (ref : DeploymentRef) (h2 : s.tasks tid = some Phase.awaitingDeploy)
    (hf : fetchLatestDeployment r = .ok (some ref)) :
    step s (.deployRes tid r) =
      { s with tasks := setTask s.tasks tid (.awaitingRestart ref.id),
               log := .restartCall tid s.now :: s.log } := by
  simp only [step]; rw [h2, hf]

theorem step_restart_skip (s : Sys) (tid : Nat) (r : FetchResult GqlBody)
    (h2 : ∀ d, s.tasks tid ≠ some (Phase.awaitingRestart d)) :
    step s (.restartRes tid r) = s := by
  simp only [step]

theorem step_restart_throw (s : Sys) (tid : Nat) (r : FetchResult GqlBody) (d : String)
    (h2 : s.tasks tid = some (Phase.awaitingRestart d))
    (hf : restartDeployment r = .error ()) :
    step s (.restartRes tid r) =
      { s with tasks := setTask s.tasks tid (.done none) } := by
  simp only [step]; rw [h2, hf]

theorem step_restart_done (s : Sys) (tid : Nat) (r : FetchResult GqlBody) (d : String)
    (b : Bool) (h2 : s.tasks tid = some (Phase.awaitingRestart d))
    (hf : restartDeployment r = .ok b) :
    step s (.restartRes tid r) =
      { s with tasks := setTask s.tasks tid
                 (.done (some (if b then wakeOkMsg else wakeFailMsg))),
               timers := (s.now + COOLDOWN_MS) :: s.timers } := by
  simp only [step]; rw [h2, hf]

/-! ## The reachability invariant is preserved -/

theorem isActive_done (m : Option String) : isActive (some (.done m)) = false := rfl

theorem length_le_one_cases {l : List Nat} (h : l.length ≤ 1) :
    l = [] ∨ ∃ a, l = [a] := by
  rcases l with _ | ⟨a, rest⟩
  · exact Or.inl rfl
  · rcases rest with _ | ⟨b, rest2⟩
    · exact Or.inr ⟨a, rfl⟩
    · simp at h

theorem inv_set_done (s : Sys) (tid : Nat) (m : Option String) (h : Inv s) :
    Inv { s with tasks := setTask s.tasks tid (.done m) } := by
  refine ⟨h.lw_le_now, h.init_le_lw, ?_, ?_, h.timers_len, ?_, ?_, ?_, ?_, ?_⟩
  · intro tid' ha
    by_cases htd : tid' = tid
    · subst htd; simp [setTask, isActive] at ha
    · exact h.active_lock tid' (by simpa [setTask, htd] using ha)
  · intro hne
    obtain ⟨hr, hact⟩ := h.timers_lock hne
    refine ⟨hr, fun tid' => ?_⟩
    by_cases htd : tid' = tid
    · subst htd; simp [setTask, isActive]
    · simpa [setTask, htd] using hact tid'
  · intro ta tb ha hb
    by_cases hta : ta = tid
    · subst hta; simp [setTask, isActive] at ha
    · by_cases htb : tb = tid
      · subst htb; simp [setTask, isActive] at hb
      · exact h.active_unique ta tb (by simpa [setTask, hta] using ha)
          (by simpa [setTask, htb] using hb)
  · intro tid' t hmem
    by_cases htd : tid' = tid
    · subst htd; simp [setTask, rank]
    · simpa [setTask, htd] using h.init_rank tid' t hmem
  · intro tid' t hmem
    by_cases htd : tid' = tid
    · subst htd; simp [setTask, rank]
    · simpa [setTask, htd] using h.rcall_rank tid' t hmem
  · intro tid' t hmem
    by_cases htd : tid' = tid
    · subst htd; simp [setTask, rank]
    · simpa [setTask, htd] using h.arr_rank tid' t hmem
  · intro tid' ha
    by_cases htd : tid' = tid
    · subst htd; simp [setTask, isActive] at ha
    · exact h.active_entry tid' (by simpa [setTask, htd] using ha)

theorem inv_conn_proceed (s : Sys) (tid : Nat) (h : Inv s)
    (h2 : s.tasks tid = none) :
    Inv { s with tasks := setTask s.tasks tid .awaitingHealth,
                 log := .arrival tid s.now :: s.log } := by
  refine ⟨h.lw_le_now, ?_, ?_, ?_, h.timers_len, ?_, ?_, ?_, ?_, ?_⟩
  · intro tid' t hmem
    simp only [List.mem_cons] at hmem
    rcases hmem with heq | hmem
    · cases heq
    · exact h.init_le_lw tid' t hmem
  · intro tid' ha
    by_cases htd : tid' = tid
    · subst htd; simp [setTask, isActive] at ha
    · exact h.active_lock tid' (by simpa [setTask, htd] using ha)
  · intro hne
    obtain ⟨hr, hact⟩ := h.timers_lock hne
    refine ⟨hr, fun tid' => ?_⟩
    by_cases htd : tid' = tid
    · subst htd; simp [setTask, isActive]
    · simpa [setTask, htd] using hact tid'
  · intro ta tb ha hb
    by_cases hta : ta = tid
    · subst hta; simp [setTask, isActive] at ha
    · by_cases htb : tb = tid
      · subst htb; simp [setTask, isActive] at hb
      · exact h.active_unique ta tb (by simpa [setTask, hta] using ha)
          (by simpa [setTask, htb] using hb)
  · intro tid' t hmem
    simp only [List.mem_cons] at hmem
    rcases hmem with heq | hmem
    · cases heq
    · by_cases htd : tid' = tid
      · subst htd
        have := h.init_rank tid' t hmem; rw [h2] at this; simp [rank] at this
      · simpa [setTask, htd] using h.init_rank tid' t hmem
  · intro tid' t hmem
    simp only [List.mem_cons] at hmem
    rcases hmem with heq | hmem
    · cases heq
    · by_cases htd : tid' = tid
      · subst htd
        have := h.rcall_rank tid' t hmem; rw [h2] at this; simp [rank] at this
      · simpa [setTask, htd] using h.rcall_rank tid' t hmem
  · intro tid' t hmem
    by_cases htd : tid' = tid
    · subst htd; simp [setTask, rank]
    · simp only [List.mem_cons] at hmem
      rcases hmem with heq | hmem
      · cases heq; exact absurd rfl htd
      · simpa [setTask, htd] using h.arr_rank tid' t hmem
  · intro tid' ha
    by_cases htd : tid' = tid
    · subst htd; simp [setTask, isActive] at ha
    · exact List.mem_cons_of_mem _
        (h.active_entry tid' (by simpa [setTask, htd] using ha))

theorem inv_tick (s : Sys) (d : Nat) (h : Inv s) :
    Inv { s with now := s.now + d,
                 restarting := if s.timers.any (fun due => decide (due ≤ s.now + d))
                   then false else s.restarting,
                 timers := s.timers.filter (fun due => decide (s.now + d < due)) } := by
  refine ⟨h.lw_le_now.trans (Nat.le_add_right _ _), h.init_le_lw, ?_, ?_,
    (List.length_filter_le _ _).trans h.timers_len, h.active_unique,
    h.init_rank, h.rcall_rank, h.arr_rank, h.active_entry⟩
  · intro tid ha
    obtain ⟨hr, ht⟩ := h.active_lock tid ha
    constructor
    · simp [ht, hr]
    · simp [ht]
  · intro hne
    have hne2 : s.timers.filter (fun due => decide (s.now + d < due)) ≠ [] := hne
    rcases length_le_one_cases h.timers_len with ht | ⟨due, ht⟩
    · rw [ht] at hne2; simp at hne2
    · by_cases hd : s.now + d < due
      · obtain ⟨hr, hact⟩ := h.timers_lock (by rw [ht]; simp)
        have hnl : ¬ due ≤ s.now + d := not_le.mpr hd
        exact ⟨by simp [ht, hnl, hr], hact⟩
      · rw [ht] at hne2; simp [hd] at hne2

theorem inv_initiate (s : Sys) (tid : Nat) (h : Inv s)
    (h2 : s.tasks tid = some .awaitingHealth) (hres : s.restarting = false) :
    Inv { s with restarting := true, lastWake := s.now,
                 tasks := setTask s.tasks tid .awaitingDeploy,
                 log := .initiation tid s.now :: s.log } := by
  have hts : s.timers = [] := by
    by_contra hts
    exact absurd (h.timers_lock hts).1 (by simp [hres])
  refine ⟨Nat.le_refl _, ?_, ?_, ?_, h.timers_len, ?_, ?_, ?_, ?_, ?_⟩
  · intro tid' t hmem
    simp only [List.mem_cons] at hmem
    rcases hmem with heq | hmem
    · cases heq; exact Nat.le_refl _
    · exact (h.init_le_lw tid' t hmem).trans h.lw_le_now
  · intro tid' ha
    exact ⟨rfl, hts⟩
  · intro hne
    exact absurd (h.timers_lock hne).1 (by simp [hres])
  · intro ta tb ha hb
    by_cases hta : ta = tid
    · by_cases htb : tb = tid
      · rw [hta, htb]
      · have hb2 : isActive (s.tasks tb) = true := by simpa [setTask, htb] using hb
        exact absurd (h.active_lock tb hb2).1 (by simp [hres])
    · have ha2 : isActive (s.tasks ta) = true := by simpa [setTask, hta] using ha
      exact absurd (h.active_lock ta ha2).1 (by simp [hres])
  · intro tid' t hmem
    by_cases htd : tid' = tid
    · subst htd; simp [setTask, rank]
    · simp only [List.mem_cons] at hmem
      rcases hmem with heq | hmem
      · cases heq; exact absurd rfl htd
      · simpa [setTask, htd] using h.init_rank tid' t hmem
  · intro tid' t hmem
    simp only [List.mem_cons] at hmem
    rcases hmem with heq | hmem
    · cases heq
    · by_cases htd : tid' = tid
      · subst htd
        have := h.rcall_rank tid' t hmem; rw [h2] at this; simp [rank] at this
      · simpa [setTask, htd] using h.rcall_rank tid' t hmem
  · intro tid' t hmem
    by_cases htd : tid' = tid
    · subst htd; simp [setTask, rank]
    · simp only [List.mem_cons] at hmem
      rcases hmem with heq | hmem
      · cases heq
      · simpa [setTask, htd] using h.arr_rank tid' t hmem
  · intro tid' ha
    by_cases htd : tid' = tid
    · subst htd; exact List.mem_cons_self _ _
    · have ha2 : isActive (s.tasks tid') = true := by simpa [setTask, htd] using ha
      exact absurd (h.active_lock tid' ha2).1 (by simp [hres])

theorem inv_deploy_none (s : Sys) (tid : Nat) (h : Inv s)
    (h2 : s.tasks tid = some .awaitingDeploy) :
    Inv { s with restarting := false,
                 tasks := setTask s.tasks tid (.done (some noDeployMsg)) } := by
  have hact : isActive (s.tasks tid) = true := by rw [h2]; rfl
  obtain ⟨hr, hts⟩ := h.active_lock tid hact
  refine ⟨h.lw_le_now, h.init_le_lw, ?_, ?_, h.timers_len, ?_, ?_, ?_, ?_, ?_⟩
  · intro tid' ha
    by_cases htd : tid' = tid
    · subst htd; simp [setTask, isActive] at ha
    · have ha2 : isActive (s.tasks tid') = true := by simpa [setTask, htd] using ha
      exact absurd (h.active_unique tid' tid ha2 hact) htd
  · intro hne
    exact absurd hts hne
  · intro ta tb ha hb
    by_cases hta : ta = tid
    · subst hta; simp [setTask, isActive] at ha
    · by_cases htb : tb = tid
      · subst htb; simp [setTask, isActive] at hb
      · exact h.active_unique ta tb (by simpa [setTask, hta] using ha)
          (by simpa [setTask, htb] using hb)
  · intro tid' t hmem
    by_cases htd : tid' = tid
    · subst htd; simp [setTask, rank]
    · simpa [setTask, htd] using h.init_rank tid' t hmem
  · intro tid' t hmem
    by_cases htd : tid' = tid
    · subst htd; simp [setTask, rank]
    · simpa [setTask, htd] using h.rcall_rank tid' t hmem
  · intro tid' t hmem
    by_cases htd : tid' = tid
    · subst htd; simp [setTask, rank]
    · simpa [setTask, htd] using h.arr_rank tid' t hmem
  · intro tid' ha
    by_cases htd : tid' = tid
    · subst htd; simp [setTask, isActive] at ha
    · have ha2 : isActive (s.tasks tid') = true := by simpa [setTask, htd] using ha
      exact absurd (h.active_unique tid' tid ha2 hact) htd

theorem inv_deploy_found (s : Sys) (tid : Nat) (dep : String) (h : Inv s)
    (h2 : s.tasks tid = some .awaitingDeploy) :
    Inv { s with tasks := setTask s.tasks tid (.awaitingRestart dep),
                 log := .restartCall tid s.now :: s.log } := by
  have hact : isActive (s.tasks tid) = true := by rw [h2]; rfl
  obtain ⟨hr, hts⟩ := h.active_lock tid hact
  refine ⟨h.lw_le_now, ?_, ?_, ?_, h.timers_len, ?_, ?_, ?_, ?_, ?_⟩
  · intro tid' t hmem
    simp only [List.mem_cons] at hmem
    rcases hmem with heq | hmem
    · cases heq
    · exact h.init_le_lw tid' t hmem
  · intro tid' ha
    by_cases htd : tid' = tid
    · exact ⟨hr, hts⟩
    · exact h.active_lock tid' (by simpa [setTask, htd] using ha)
  · intro hne
    exact absurd hts hne
  · intro ta tb ha hb
    by_cases hta : ta = tid
    · by_cases htb : tb = tid
      · rw [hta, htb]
      · have hb2 : isActive (s.tasks tb) = true := by simpa [setTask, htb] using hb
        exact absurd ((h.active_unique tb tid hb2 hact)) htb
    · have ha2 : isActive (s.tasks ta) = true := by simpa [setTask, hta] using ha
      by_cases htb : tb = tid
      · exact absurd (h.active_unique ta tid ha2 hact) hta
      · exact h.active_unique ta tb ha2 (by simpa [setTask, htb] using hb)
  · intro tid' t hmem
    simp only [List.mem_cons] at hmem
    rcases hmem with heq | hmem
    · cases heq
    · by_cases htd : tid' = tid
      · subst htd; simp [setTask, rank]
      · simpa [setTask, htd] using h.init_rank tid' t hmem
  · intro tid' t hmem
    by_cases htd : tid' = tid
    · subst htd; simp [setTask, rank]
    · simp only [List.mem_cons] at hmem
      rcases hmem with heq | hmem
      · cases heq; exact absurd rfl htd
      · simpa [setTask, htd] using h.rcall_rank tid' t hmem
  · intro tid' t hmem
    simp only [List.mem_cons] at hmem
    rcases hmem with heq | hmem
    · cases heq
    · by_cases htd : tid' = tid
      · subst htd; simp [setTask, rank]
      · simpa [setTask, htd] using h.arr_rank tid' t hmem
  · intro tid' ha
    by_cases htd : tid' = tid
    · exact List.mem_cons_of_mem _ (h.active_entry tid' (by rw [htd, h2]; rfl))
    · have ha2 : isActive (s.tasks tid') = true := by simpa [setTask, htd] using ha
      exact List.mem_cons_of_mem _ (h.active_entry tid' ha2)

theorem inv_restart_done (s : Sys) (tid : Nat) (dep : String) (msg : Option String)
    (h : Inv s) (h2 : s.tasks tid = some (.awaitingRestart dep)) :
    Inv { s with tasks := setTask s.tasks tid (.done msg),
                 timers := (s.now + COOLDOWN_MS) :: s.timers } := by
  have hact : isActive (s.tasks tid) = true := by rw [h2]; rfl
  obtain ⟨hr, hts⟩ := h.active_lock tid hact
  have hother : ∀ tid', tid' ≠ tid → isActive (s.tasks tid') = false := by
    intro tid' htd
    cases hb : isActive (s.tasks tid') with
    | false => rfl
    | true => exact absurd (h.active_unique tid' tid hb hact) htd
  refine ⟨h.lw_le_now, h.init_le_lw, ?_, ?_, ?_, ?_, ?_, ?_, ?_, ?_⟩
  · intro tid' ha
    by_cases htd : tid' = tid
    · subst htd; simp [setTask, isActive] at ha
    · have ha2 : isActive (s.tasks tid') = true := by simpa [setTask, htd] using ha
      rw [hother tid' htd] at ha2; cases ha2
  · intro hne
    refine ⟨hr, fun tid' => ?_⟩
    by_cases htd : tid' = tid
    · subst htd; simp [setTask, isActive]
    · simpa [setTask, htd] using hother tid' htd
  · simp [hts]
  · intro ta tb ha hb
    by_cases hta : ta = tid
    · subst hta; simp [setTask, isActive] at ha
    · by_cases htb : tb = tid
      · subst htb; simp [setTask, isActive] at hb
      · have ha2 : isActive (s.tasks ta) = true := by simpa [setTask, hta] using ha
        rw [hother ta hta] at ha2; cases ha2
  · intro tid' t hmem
    by_cases htd : tid' = tid
    · subst htd; simp [setTask, rank]
    · simpa [setTask, htd] using h.init_rank tid' t hmem
  · intro tid' t hmem
    by_cases htd : tid' = tid
    · subst htd; simp [setTask, rank]
    · simpa [setTask, htd] using h.rcall_rank tid' t hmem
  · intro tid' t hmem
    by_cases htd : tid' = tid
    · subst htd; simp [setTask, rank]
    · simpa [setTask, htd] using h.arr_rank tid' t hmem
  · intro tid' ha
    by_cases htd : tid' = tid
    · subst htd; simp [setTask, isActive] at ha
    · have ha2 : isActive (s.tasks tid') = true := by simpa [setTask, htd] using ha
      rw [hother tid' htd] at ha2; cases ha2

theorem step_tick_eq (s : Sys) (d : Nat) :
    step s (.tick d) =
      { s with now := s.now + d,
               restarting := if s.timers.any (fun due => decide (due ≤ s.now + d))
                 then false else s.restarting,
               timers := s.timers.filter (fun due => decide (s.now + d < due)) } := rfl

/-- Every step of the machine preserves the reachability invariant. -/
theorem inv_step (s : Sys) (ev : Ev) (h : Inv s) : Inv (step s ev) := by
  cases ev with
  | tick d => rw [step_tick_eq]; exact inv_tick s d h
  | conn tid chunk =>
    rcases h2 : s.tasks tid with _ | p
    · rcases hc : classify chunk with _ | _ | tok
      · rw [step_conn_silent s tid chunk h2 hc]; exact inv_set_done s tid none h
      · rw [step_conn_probe s tid chunk h2 hc]; exact inv_set_done s tid none h
      · rw [step_conn_proceed s tid chunk tok h2 hc]; exact inv_conn_proceed s tid h h2
    · rw [step_conn_skip s tid chunk p h2]; exact h
  | healthRes tid r =>
    by_cases h2 : s.tasks tid = some Phase.awaitingHealth
    · by_cases hr : isServerRunning r = true
      · rw [step_health_online s tid r h2 hr]
        exact inv_set_done s tid (some onlineMsg) h
      · have hrf : isServerRunning r = false := by simpa using hr
        by_cases hcool : s.restarting = true ∨ s.now - s.lastWake < COOLDOWN_MS
        · rw [step_health_starting s tid r h2 hrf hcool]
          exact inv_set_done s tid (some startingMsg) h
        · rw [step_health_initiate s tid r h2 hrf hcool]
          have hres : s.restarting = false := by
            cases hb : s.restarting with
            | false => rfl
            | true => exact absurd (Or.inl hb) hcool
          exact inv_initiate s tid h h2 hres
    · rw [step_health_skip s tid r h2]; exact h
  | deployRes tid r =>
    by_cases h2 : s.tasks tid = some Phase.awaitingDeploy
    · cases hf : fetchLatestDeployment r with
      | error u =>
        cases u
        rw [step_deploy_throw s tid r h2 hf]
        exact inv_set_done s tid none h
      | ok o =>
        rcases o with _ | ref
        · rw [step_deploy_none s tid r h2 hf]
          exact inv_deploy_none s tid h h2
        · rw [step_deploy_found s tid r ref h2 hf]
          exact inv_deploy_found s tid ref.id h h2
    · rw [step_deploy_skip s tid r h2]; exact h
  | restartRes tid r =>
    rcases h2 : s.tasks tid with _ | p
    · rw [step_restart_skip s tid r (by intro d hd; rw [h2] at hd; cases hd)]; exact h
    · cases p with
      | awaitingRestart dep =>
        cases hf : restartDeployment r with
        | error u =>
          cases u
          rw [step_restart_throw s tid r dep h2 hf]
          exact inv_set_done s tid none h
        | ok b =>
          rw [step_restart_done s tid r dep b h2 hf]
          exact inv_restart_done s tid dep _ h h2
      | awaitingHealth =>
        rw [step_restart_skip s tid r (by intro d hd; rw [h2] at hd; cases hd)]; exact h
      | awaitingDeploy =>
        rw [step_restart_skip s tid r (by intro d hd; rw [h2] at hd; cases hd)]; exact h
      | done m =>
        rw [step_restart_skip s tid r (by intro d hd; rw [h2] at hd; cases hd)]; exact h

/-- Runs preserve the invariant. -/
theorem inv_fold (s : Sys) (evs : List Ev) (h : Inv s) : Inv (runFrom s evs) := by
  induction evs generalizing s with
  | nil => exact h
  | cons e rest ih => exact ih (step s e) (inv_step s e h)

/-- The initial state satisfies the invariant. -/
theorem inv_init : Inv initSys := by
  refine ⟨Nat.le_refl _, ?_, ?_, ?_, ?_, ?_, ?_, ?_, ?_, ?_⟩
  · intro tid t hmem; simp [initSys] at hmem
  · intro tid ha; simp [initSys, isActive] at ha
  · intro hne; simp [initSys] at hne
  · simp [initSys]
  · intro ta tb ha hb; simp [initSys, isActive] at ha
  · intro tid t hmem; simp [initSys] at hmem
  · intro tid t hmem; simp [initSys] at hmem
  · intro tid t hmem; simp [initSys] at hmem
  · intro tid ha; simp [initSys, isActive] at ha

/-- Every state reached from the initial state satisfies the invariant. -/
theorem inv_run (evs : List Ev) : Inv (runEvs evs) := inv_fold initSys evs inv_init

/-! ## Further consequences of the invariant -/

theorem no_new_for_done_step (s : Sys) (ev : Ev) (tid : Nat) (m : Option String)
    (h : s.tasks tid = some (.done m)) (e : Entry) (htid : entryTid e = tid)
    (he : e ∈ (step s ev).log) : e ∈ s.log := by
  rcases log_new_step s ev e he with h1 | ⟨tid2, hc⟩
  · exact h1
  · exfalso
    rcases hc with ⟨heq, hp⟩ | ⟨heq, hp⟩ | ⟨heq, hp⟩ <;>
      (subst heq; simp [entryTid] at htid; subst htid; rw [h] at hp; simp at hp)

theorem no_new_for_done_fold (s : Sys) (evs : List Ev) (tid : Nat) (m : Option String)
    (h : s.tasks tid = some (.done m)) (e : Entry) (htid : entryTid e = tid)
    (he : e ∈ (runFrom s evs).log) : e ∈ s.log := by
  induction evs generalizing s with
  | nil => exact he
  | cons ev rest ih =>
    exact no_new_for_done_step s ev tid m h e htid
      (ih (step s ev) (done_stable_step s ev tid m h) he)

theorem no_entries_of_awaitingHealth (s : Sys) (h : Inv s) (tid : Nat)
    (hph : s.tasks tid = some .awaitingHealth) :
    (∀ t, Entry.initiation tid t ∉ s.log) ∧ (∀ t, Entry.restartCall tid t ∉ s.log) := by
  constructor
  · intro t hmem
    have := h.init_rank tid t hmem; rw [hph] at this; simp [rank] at this
  · intro t hmem
    have := h.rcall_rank tid t hmem; rw [hph] at this; simp [rank] at this

theorem no_entries_of_fresh (s : Sys) (h : Inv s) (tid : Nat)
    (hph : s.tasks tid = none) :
    (∀ t, Entry.arrival tid t ∉ s.log) ∧ (∀ t, Entry.initiation tid t ∉ s.log) ∧
    (∀ t, Entry.restartCall tid t ∉ s.log) := by
  refine ⟨?_, ?_, ?_⟩
  · intro t hmem
    have := h.arr_rank tid t hmem; rw [hph] at this; simp [rank] at this
  · intro t hmem
    have := h.init_rank tid t hmem; rw [hph] at this; simp [rank] at this
  · intro t hmem
    have := h.rcall_rank tid t hmem; rw [hph] at this; simp [rank] at this

theorem lastWake_mono_step (s : Sys) (ev : Ev) (h : Inv s) :
    s.lastWake ≤ (step s ev).lastWake := by
  cases ev with
  | tick d => rw [step_tick_eq]
  | conn tid chunk =>
    rcases h2 : s.tasks tid with _ | p
    · rcases hc : classify chunk with _ | _ | tok
      · rw [step_conn_silent s tid chunk h2 hc]
      · rw [step_conn_probe s tid chunk h2 hc]
      · rw [step_conn_proceed s tid chunk tok h2 hc]
    · rw [step_conn_skip s tid chunk p h2]
  | healthRes tid r =>
    by_cases h2 : s.tasks tid = some Phase.awaitingHealth
    · by_cases hr : isServerRunning r = true
      · rw [step_health_online s tid r h2 hr]
      · have hrf : isServerRunning r = false := by simpa using hr
        by_cases hcool : s.restarting = true ∨ s.now - s.lastWake < COOLDOWN_MS
        · rw [step_health_starting s tid r h2 hrf hcool]
        · rw [step_health_initiate s tid r h2 hrf hcool]; exact h.lw_le_now
    · rw [step_health_skip s tid r h2]
  | deployRes tid r =>
    by_cases h2 : s.tasks tid = some Phase.awaitingDeploy
    · cases hf : fetchLatestDeployment r with
      | error u => cases u; rw [step_deploy_throw s tid r h2 hf]
      | ok o =>
        rcases o with _ | ref
        · rw [step_deploy_none s tid r h2 hf]
        · rw [step_deploy_found s tid r ref h2 hf]
    · rw [step_deploy_skip s tid r h2]
  | restartRes tid r =>
    rcases h2 : s.tasks tid with _ | p
    · rw [step_restart_skip s tid r (by intro d hd; rw [h2] at hd; cases hd)]
    · cases p with
      | awaitingRestart dep =>
        cases hf : restartDeployment r with
        | error u =>
          cases u; rw [step_restart_throw s tid r dep h2 hf]
        | ok b => rw [step_restart_done s tid r dep b h2 hf]
      | awaitingHealth =>
        rw [step_restart_skip s tid r (by intro d hd; rw [h2] at hd; cases hd)]
      | awaitingDeploy =>
        rw [step_restart_skip s tid r (by intro d hd; rw [h2] at hd; cases hd)]
      | done m =>
        rw [step_restart_skip s tid r (by intro d hd; rw [h2] at hd; cases hd)]

theorem lastWake_mono_fold (s : Sys) (evs : List Ev) (h : Inv s) :
    s.lastWake ≤ (runFrom s evs).lastWake := by
  induction evs generalizing s with
  | nil => exact Nat.le_refl _
  | cons e rest ih =>
    exact (lastWake_mono_step s e h).trans (ih (step s e) (inv_step s e h))

theorem now_preserved (s : Sys) (ev : Ev) (hev : ∀ d, ev ≠ Ev.tick d) :
    (step s ev).now = s.now := by
  cases ev with
  | tick d => exact absurd rfl (hev d)
  | conn tid chunk => simp only [step]; (repeat' split) <;> rfl
  | healthRes tid r => simp only [step]; (repeat' split) <;> rfl
  | deployRes tid r => simp only [step]; (repeat' split) <;> rfl
  | restartRes tid r => simp only [step]; (repeat' split) <;> rfl

/-! ## The lock between the deferred release and its deadline -/

theorem jlock_step (due : Nat) (s : Sys) (ev : Ev) (hJ : Jlock due s)
    (hlt : (step s ev).now < due) : Jlock due (step s ev) := by
  obtain ⟨hr, ht, hact, hnow⟩ := hJ
  cases ev with
  | tick d =>
    have hlt2 : s.now + d < due := by rw [step_tick_eq] at hlt; exact hlt
    rw [step_tick_eq]
    refine ⟨?_, ?_, hact, hlt2⟩
    · simp [ht, not_le.mpr hlt2, hr]
    · simp [ht, hlt2]
  | conn tid chunk =>
    rcases h2 : s.tasks tid with _ | p
    · rcases hc : classify chunk with _ | _ | tok
      · rw [step_conn_silent s tid chunk h2 hc]
        refine ⟨hr, ht, fun tid' => ?_, hnow⟩
        by_cases htd : tid' = tid
        · subst htd; simp [setTask, isActive]
        · simpa [setTask, htd] using hact tid'
      · rw [step_conn_probe s tid chunk h2 hc]
        refine ⟨hr, ht, fun tid' => ?_, hnow⟩
        by_cases htd : tid' = tid
        · subst htd; simp [setTask, isActive]
        · simpa [setTask, htd] using hact tid'
      · rw [step_conn_proceed s tid chunk tok h2 hc]
        refine ⟨hr, ht, fun tid' => ?_, hnow⟩
        by_cases htd : tid' = tid
        · subst htd; simp [setTask, isActive]
        · simpa [setTask, htd] using hact tid'
    · rw [step_conn_skip s tid chunk p h2]; exact ⟨hr, ht, hact, hnow⟩
  | healthRes tid r =>
    by_cases h2 : s.tasks tid = some Phase.awaitingHealth
    · by_cases hrun : isServerRunning r = true
      · rw [step_health_online s tid r h2 hrun]
        refine ⟨hr, ht, fun tid' => ?_, hnow⟩
        by_cases htd : tid' = tid
        · subst htd; simp [setTask, isActive]
        · simpa [setTask, htd] using hact tid'
      · have hrf : isServerRunning r = false := by simpa using hrun
        rw [step_health_starting s tid r h2 hrf (Or.inl hr)]
        refine ⟨hr, ht, fun tid' => ?_, hnow⟩
        by_cases htd : tid' = tid
        · subst htd; simp [setTask, isActive]
        · simpa [setTask, htd] using hact tid'
    · rw [step_health_skip s tid r h2]; exact ⟨hr, ht, hact, hnow⟩
  | deployRes tid r =>
    have h2 : s.tasks tid ≠ some Phase.awaitingDeploy := by
      intro hd; have := hact tid; rw [hd] at this; simp [isActive] at this
    rw [step_deploy_skip s tid r h2]; exact ⟨hr, ht, hact, hnow⟩
  | restartRes tid r =>
    have h2 : ∀ d, s.tasks tid ≠ some (Phase.awaitingRestart d) := by
      intro d hd; have := hact tid; rw [hd] at this; simp [isActive] at this
    rw [step_restart_skip s tid r h2]; exact ⟨hr, ht, hact, hnow⟩

theorem jlock_fold (due : Nat) (s : Sys) (evs : List Ev) (hJ : Jlock due s)
    (hlt : (runFrom s evs).now < due) : Jlock due (runFrom s evs) := by
  induction evs generalizing s with
  | nil => exact hJ
  | cons e rest ih =>
    have hlt2 : (runFrom (step s e) rest).now < due := hlt
    have h1 : (step s e).now < due :=
      lt_of_le_of_lt (now_mono_fold (step s e) rest) hlt2
    exact ih (step s e) (jlock_step due s e hJ h1) hlt2

theorem jlock_cross (due : Nat) (s : Sys) (ev : Ev) (hJ : Jlock due s)
    (hge : due ≤ (step s ev).now) :
    (step s ev).restarting = false ∧ (step s ev).timers = [] := by
  obtain ⟨hr, ht, hact, hnow⟩ := hJ
  cases ev with
  | tick d =>
    have hge2 : due ≤ s.now + d := by rw [step_tick_eq] at hge; exact hge
    rw [step_tick_eq]
    constructor
    · simp [ht, hge2]
    · simp [ht, not_lt.mpr hge2]
  | conn tid chunk =>
    have := now_preserved s (.conn tid chunk) (fun d hd => by cases hd)
    rw [this] at hge
    exact absurd hnow (not_lt.mpr hge)
  | healthRes tid r =>
    have := now_preserved s (.healthRes tid r) (fun d hd => by cases hd)
    rw [this] at hge
    exact absurd hnow (not_lt.mpr hge)
  | deployRes tid r =>
    have := now_preserved s (.deployRes tid r) (fun d hd => by cases hd)
    rw [this] at hge
    exact absurd hnow (not_lt.mpr hge)
  | restartRes tid r =>
    have := now_preserved s (.restartRes tid r) (fun d hd => by cases hd)
    rw [this] at hge
    exact absurd hnow (not_lt.mpr hge)

/-! ## Shared argument: a connection whose check runs while the lock or
cooldown window is active ends with a response and never reaches the
Deployment Controller -/

theorem check_blocked_done (s : Sys) (tid : Nat) (r : FetchResult HealthBody)
    (hph : s.tasks tid = some Phase.awaitingHealth)
    (hcond : s.restarting = true ∨ s.now - s.lastWake < COOLDOWN_MS) :
    ∃ m, step s (.healthRes tid r) =
      { s with tasks := setTask s.tasks tid (.done (some m)) } := by
  cases hr : isServerRunning r with
  | true => exact ⟨onlineMsg, step_health_online s tid r hph hr⟩
  | false => exact ⟨startingMsg, step_health_starting s tid r hph hr hcond⟩

theorem no_calls_after_check (s : Sys) (tid : Nat) (r : FetchResult HealthBody)
    (post : List Ev) (hinv : Inv s)
    (hph : s.tasks tid = some Phase.awaitingHealth)
    (hcond : s.restarting = true ∨ s.now - s.lastWake < COOLDOWN_MS) :
    (∀ t, Entry.initiation tid t ∉ (runFrom (step s (.healthRes tid r)) post).log) ∧
    (∀ t, Entry.restartCall tid t ∉ (runFrom (step s (.healthRes tid r)) post).log) := by
  obtain ⟨m, hstep⟩ := check_blocked_done s tid r hph hcond
  have hdone : (step s (.healthRes tid r)).tasks tid = some (.done (some m)) := by
    rw [hstep]; simp [setTask]
  obtain ⟨hni, hnr⟩ := no_entries_of_awaitingHealth s hinv tid hph
  constructor <;> intro t hmem
  · have h3 := no_new_for_done_fold _ post tid (some m) hdone
      (Entry.initiation tid t) rfl hmem
    rw [hstep] at h3
    exact hni t h3
  · have h3 := no_new_for_done_fold _ post tid (some m) hdone
      (Entry.restartCall tid t) rfl hmem
    rw [hstep] at h3
    exact hnr t h3

/-! ## The claims -/

/-- C9: `isServerRunning` returns `false` for every transport error, every
non-success HTTP status, and every malformed body; whenever the HTTP status
is successful and the body parses, it returns `true` regardless of the
body's `status` field — only the HTTP status code gates the decision. -/
theorem c9_health_gate :
    isServerRunning FetchResult.netError = false ∧
    (∀ body, isServerRunning (FetchResult.response false body) = false) ∧
    isServerRunning (FetchResult.response true HealthBody.malformed) = false ∧
    (∀ st, isServerRunning (FetchResult.response true (HealthBody.payload st)) = true) := by
  refine ⟨rfl, fun body => rfl, rfl, fun st => rfl⟩

/-- C10 as stated is false: an empty string is present yet falsy in
JavaScript, so `startup` exits even though all four values are present. -/
theorem c10_cex : ¬ claimC10 := by
  intro h
  have h2 := h.2 ⟨some "", some "a", some "b", some "c"⟩ rfl rfl rfl rfl
  exact absurd h2 (by decide)

/-- C10 (amended): if any of the four required configuration values is
absent or empty (JavaScript-falsy), the process exits with status 1 before
the listener starts; if all four are present and non-empty, the startup
check passes and the listener starts on the configured port. -/
theorem c10_amended :
    (∀ e : Env, truthy e.projectId = false ∨ truthy e.environmentId = false ∨
      truthy e.serviceId = false ∨ truthy e.railwayApiToken = false →
      startup e = Startup.exitWith 1) ∧
    (∀ e : Env, truthy e.projectId = true → truthy e.environmentId = true →
      truthy e.serviceId = true → truthy e.railwayApiToken = true →
      startup e = Startup.listen PORT) := by
  constructor
  · intro e he
    rcases he with hx | hx | hx | hx <;> simp [startup, hx]
  · intro e h1 h2 h3 h4
    simp [startup, h1, h2, h3, h4]

/-- Witness for C10 (amended) at concrete configurations. -/
theorem c10_amended_witness :
    startup ⟨none, some "a", some "b", some "c"⟩ = Startup.exitWith 1 ∧
    startup ⟨some "p", some "e", some "s", some "t"⟩ = Startup.listen PORT :=
  ⟨c10_amended.1 ⟨none, some "a", some "b", some "c"⟩ (Or.inl rfl),
   c10_amended.2 ⟨some "p", some "e", some "s", some "t"⟩ rfl rfl rfl rfl⟩

/-- C3 as stated is false: on a transport error `fetchLatestDeployment`
throws (it has no try/catch), it does not return `none`. -/
theorem c3_cex : ¬ claimC3 := by
  intro h
  have h1 := h.1
  simp [fetchLatestDeployment] at h1

/-- C3 (amended): `fetchLatestDeployment` returns `none` on a GraphQL error
payload or an empty deployments list, and `restartDeployment` returns
`false` on an error payload (`true` otherwise); but on transport errors and
malformed or path-missing bodies both throw, and in either wake-attempt
phase the thrown exception is caught only by the connection handler's outer
catch, which closes the socket with no response text and leaves the wake
lock, `lastWakeAt`, the pending timers and the call log unchanged (in
particular no release timer is ever scheduled on a throw). -/
theorem c3_amended :
    (∀ ok e, fetchLatestDeployment (.response ok (.payload true e)) = Except.ok none) ∧
    (∀ ok, fetchLatestDeployment (.response ok (.payload false (some []))) = Except.ok none) ∧
    fetchLatestDeployment .netError = Except.error () ∧
    (∀ ok, fetchLatestDeployment (.response ok .malformed) = Except.error ()) ∧
    (∀ ok, fetchLatestDeployment (.response ok (.payload false none)) = Except.error ()) ∧
    (∀ ok e, restartDeployment (.response ok (.payload true e)) = Except.ok false) ∧
    (∀ ok e, restartDeployment (.response ok (.payload false e)) = Except.ok true) ∧
    restartDeployment .netError = Except.error () ∧
    (∀ ok, restartDeployment (.response ok .malformed) = Except.error ()) ∧
    (∀ (s : Sys) (tid : Nat) (r : FetchResult GqlBody),
      s.tasks tid = some Phase.awaitingDeploy →
      fetchLatestDeployment r = .error () →
      step s (.deployRes tid r) =
        { s with tasks := setTask s.tasks tid (.done none) }) ∧
    (∀ (s : Sys) (tid : Nat) (r : FetchResult GqlBody) (d : String),
      s.tasks tid = some (Phase.awaitingRestart d) →
      restartDeployment r = .error () →
      step s (.restartRes tid r) =
        { s with tasks := setTask s.tasks tid (.done none) }) := by
  refine ⟨fun ok e => rfl, fun ok => rfl, rfl, fun ok => rfl, fun ok => rfl,
    fun ok e => rfl, fun ok e => rfl, rfl, fun ok => rfl, ?_, ?_⟩
  · intro s tid r h2 hf
    exact step_deploy_throw s tid r h2 hf
  · intro s tid r d h2 hf
    exact step_restart_throw s tid r d h2 hf

/-- Witness for C3 (amended): both handler clauses at concrete reachable
states — task 1 awaiting the deployment query, and task 1 awaiting the
restart mutation, with the fetch throwing in each. -/
theorem c3_amended_witness :
    (step (runEvs pre2) (.deployRes 1 FetchResult.netError) =
      { runEvs pre2 with tasks := setTask (runEvs pre2).tasks 1 (.done none) }) ∧
    (step (runEvs pre4) (.restartRes 1 FetchResult.netError) =
      { runEvs pre4 with tasks := setTask (runEvs pre4).tasks 1 (.done none) }) :=
  ⟨c3_amended.2.2.2.2.2.2.2.2.2.1 (runEvs pre2) 1 FetchResult.netError (by decide) rfl,
   c3_amended.2.2.2.2.2.2.2.2.2.2 (runEvs pre4) 1 FetchResult.netError "d1"
     (by decide) rfl⟩

/-- C5: whatever the prior wake state (any `inFlight`, any `lastWakeAt`),
when the health oracle reports running, a non-probe connection is answered
with the "already online" message, the wake state (`restarting`,
`lastWake`), the pending timers and the call log are untouched, and that
connection never invokes the Deployment Controller in any continuation. -/
theorem c5_online_no_mutation (pre post : List Ev) (tid : Nat)
    (r : FetchResult HealthBody)
    (hph : (runEvs pre).tasks tid = some Phase.awaitingHealth)
    (hr : isServerRunning r = true) :
    (step (runEvs pre) (.healthRes tid r)).restarting = (runEvs pre).restarting ∧
    (step (runEvs pre) (.healthRes tid r)).lastWake = (runEvs pre).lastWake ∧
    (step (runEvs pre) (.healthRes tid r)).timers = (runEvs pre).timers ∧
    (step (runEvs pre) (.healthRes tid r)).log = (runEvs pre).log ∧
    (step (runEvs pre) (.healthRes tid r)).tasks tid = some (Phase.done (some onlineMsg)) ∧
    (∀ t, Entry.initiation tid t ∉
      (runFrom (step (runEvs pre) (.healthRes tid r)) post).log) ∧
    (∀ t, Entry.restartCall tid t ∉
      (runFrom (step (runEvs pre) (.healthRes tid r)) post).log) := by
  have hinv := inv_run pre
  have hstep := step_health_online (runEvs pre) tid r hph hr
  have hdone : (step (runEvs pre) (.healthRes tid r)).tasks tid
      = some (Phase.done (some onlineMsg)) := by
    rw [hstep]; simp [setTask]
  obtain ⟨hni, hnr⟩ := no_entries_of_awaitingHealth (runEvs pre) hinv tid hph
  refine ⟨by rw [hstep], by rw [hstep], by rw [hstep], by rw [hstep], hdone, ?_, ?_⟩
  · intro t hmem
    have h3 := no_new_for_done_fold _ post tid (some onlineMsg) hdone
      (Entry.initiation tid t) rfl hmem
    rw [hstep] at h3
    exact hni t h3
  · intro t hmem
    have h3 := no_new_for_done_fold _ post tid (some onlineMsg) hdone
      (Entry.restartCall tid t) rfl hmem
    rw [hstep] at h3
    exact hnr t h3

/-- Witness for C5: a wake is pending (the lock is even held) yet the
health oracle reports running, so task 2 is answered "already online" and
never initiates. -/
theorem c5_witness :
    (step (runEvs [Ev.tick 100000, Ev.conn 1 chunkA, Ev.healthRes 1 hDown,
        Ev.conn 2 chunkB]) (.healthRes 2 hUp)).tasks 2
      = some (Phase.done (some onlineMsg)) ∧
    Entry.initiation 2 100000 ∉
      (runFrom (step (runEvs [Ev.tick 100000, Ev.conn 1 chunkA, Ev.healthRes 1 hDown,
        Ev.conn 2 chunkB]) (.healthRes 2 hUp)) []).log :=
  ⟨(c5_online_no_mutation [Ev.tick 100000, Ev.conn 1 chunkA, Ev.healthRes 1 hDown,
      Ev.conn 2 chunkB] [] 2 hUp (by decide) rfl).2.2.2.2.1,
   (c5_online_no_mutation [Ev.tick 100000, Ev.conn 1 chunkA, Ev.healthRes 1 hDown,
      Ev.conn 2 chunkB] [] 2 hUp (by decide) rfl).2.2.2.2.2.1 100000⟩

/-- C6: when the health oracle reports not running but the lock is held or
the cooldown window has not elapsed, a non-probe connection is answered
with the "starting, please wait" message, the wake state, timers and call
log are untouched, and that connection never invokes the Deployment
Controller in any continuation. -/
theorem c6_cooldown_blocks (pre post : List Ev) (tid : Nat)
    (r : FetchResult HealthBody)
    (hph : (runEvs pre).tasks tid = some Phase.awaitingHealth)
    (hr : isServerRunning r = false)
    (hcond : (runEvs pre).restarting = true ∨
      (runEvs pre).now - (runEvs pre).lastWake < COOLDOWN_MS) :
    (step (runEvs pre) (.healthRes tid r)).restarting = (runEvs pre).restarting ∧
    (step (runEvs pre) (.healthRes tid r)).lastWake = (runEvs pre).lastWake ∧
    (step (runEvs pre) (.healthRes tid r)).timers = (runEvs pre).timers ∧
    (step (runEvs pre) (.healthRes tid r)).log = (runEvs pre).log ∧
    (step (runEvs pre) (.healthRes tid r)).tasks tid = some (Phase.done (some startingMsg)) ∧
    (∀ t, Entry.initiation tid t ∉
      (runFrom (step (runEvs pre) (.healthRes tid r)) post).log) ∧
    (∀ t, Entry.restartCall tid t ∉
      (runFrom (step (runEvs pre) (.healthRes tid r)) post).log) := by
  have hinv := inv_run pre
  have hstep := step_health_starting (runEvs pre) tid r hph hr hcond
  have hdone : (step (runEvs pre) (.healthRes tid r)).tasks tid
      = some (Phase.done (some startingMsg)) := by
    rw [hstep]; simp [setTask]
  obtain ⟨hni, hnr⟩ := no_entries_of_awaitingHealth (runEvs pre) hinv tid hph
  refine ⟨by rw [hstep], by rw [hstep], by rw [hstep], by rw [hstep], hdone, ?_, ?_⟩
  · intro t hmem
    have h3 := no_new_for_done_fold _ post tid (some startingMsg) hdone
      (Entry.initiation tid t) rfl hmem
    rw [hstep] at h3
    exact hni t h3
  · intro t hmem
    have h3 := no_new_for_done_fold _ post tid (some startingMsg) hdone
      (Entry.restartCall tid t) rfl hmem
    rw [hstep] at h3
    exact hnr t h3

/-- Witness for C6: task 1 holds the lock, the server is down, and task 2's
check is answered with the "starting" message without reaching step 3. -/
theorem c6_witness :
    (step (runEvs [Ev.tick 100000, Ev.conn 1 chunkA, Ev.healthRes 1 hDown,
        Ev.conn 2 chunkB]) (.healthRes 2 hDown)).tasks 2
      = some (Phase.done (some startingMsg)) ∧
    Entry.initiation 2 160000 ∉
      (runFrom (step (runEvs [Ev.tick 100000, Ev.conn 1 chunkA, Ev.healthRes 1 hDown,
        Ev.conn 2 chunkB]) (.healthRes 2 hDown)) [Ev.tick 60000]).log :=
  ⟨(c6_cooldown_blocks [Ev.tick 100000, Ev.conn 1 chunkA, Ev.healthRes 1 hDown,
      Ev.conn 2 chunkB] [Ev.tick 60000] 2 hDown (by decide) rfl
      (Or.inl (by decide))).2.2.2.2.1,
   (c6_cooldown_blocks [Ev.tick 100000, Ev.conn 1 chunkA, Ev.healthRes 1 hDown,
      Ev.conn 2 chunkB] [Ev.tick 60000] 2 hDown (by decide) rfl
      (Or.inl (by decide))).2.2.2.2.2.1 160000⟩

/-- C8: a first chunk whose extracted token is empty, or whose extracted
token contains the status-probe marker, closes the connection with no
response bytes and never touches the wake coordinator: the wake state,
timers and log are untouched, the task is finished with no response, it
stays finished, and no arrival, initiation or restart-call entry for it is
ever logged, whatever the server and wake state. -/
theorem c8_silent_close (pre post : List Ev) (tid : Nat) (chunk : List Char)
    (hfresh : (runEvs pre).tasks tid = none)
    (hclass : extractToken chunk = [] ∨
      containsSub probeMarker (extractToken chunk) = true) :
    (step (runEvs pre) (.conn tid chunk)).restarting = (runEvs pre).restarting ∧
    (step (runEvs pre) (.conn tid chunk)).lastWake = (runEvs pre).lastWake ∧
    (step (runEvs pre) (.conn tid chunk)).timers = (runEvs pre).timers ∧
    (step (runEvs pre) (.conn tid chunk)).log = (runEvs pre).log ∧
    (step (runEvs pre) (.conn tid chunk)).tasks tid = some (Phase.done none) ∧
    (runFrom (step (runEvs pre) (.conn tid chunk)) post).tasks tid
      = some (Phase.done none) ∧
    (∀ t, Entry.arrival tid t ∉
      (runFrom (step (runEvs pre) (.conn tid chunk)) post).log) ∧
    (∀ t, Entry.initiation tid t ∉
      (runFrom (step (runEvs pre) (.conn tid chunk)) post).log) ∧
    (∀ t, Entry.restartCall tid t ∉
      (runFrom (step (runEvs pre) (.conn tid chunk)) post).log) := by
  have hinv := inv_run pre
  have hstep : step (runEvs pre) (.conn tid chunk) =
      { runEvs pre with tasks := setTask (runEvs pre).tasks tid (.done none) } := by
    rcases hclass with he | hm
    · exact step_conn_silent (runEvs pre) tid chunk hfresh (by simp [classify, he])
    · by_cases he : extractToken chunk = []
      · exact step_conn_silent (runEvs pre) tid chunk hfresh (by simp [classify, he])
      · refine step_conn_probe (runEvs pre) tid chunk hfresh ?_
        simp [classify, List.isEmpty_iff, he, hm]
  have hdone : (step (runEvs pre) (.conn tid chunk)).tasks tid
      = some (Phase.done none) := by
    rw [hstep]; simp [setTask]
  obtain ⟨hna, hni, hnr⟩ := no_entries_of_fresh (runEvs pre) hinv tid hfresh
  refine ⟨by rw [hstep], by rw [hstep], by rw [hstep], by rw [hstep], hdone,
    done_stable_fold _ post tid none hdone, ?_, ?_, ?_⟩
  · intro t hmem
    have h3 := no_new_for_done_fold _ post tid none hdone
      (Entry.arrival tid t) rfl hmem
    rw [hstep] at h3
    exact hna t h3
  · intro t hmem
    have h3 := no_new_for_done_fold _ post tid none hdone
      (Entry.initiation tid t) rfl hmem
    rw [hstep] at h3
    exact hni t h3
  · intro t hmem
    have h3 := no_new_for_done_fold _ post tid none hdone
      (Entry.restartCall tid t) rfl hmem
    rw [hstep] at h3
    exact hnr t h3

/-- Witness for C8: both silent cases at concrete chunks — an all-punctuation
chunk and a server-list ping carrying the probe marker — while the server
is down and the state is fresh. -/
theorem c8_witness :
    (step (runEvs [Ev.tick 100000]) (.conn 1 chunkEmpty)).tasks 1
      = some (Phase.done none) ∧
    Entry.arrival 7 100000 ∉
      (runFrom (step (runEvs [Ev.tick 100000]) (.conn 7 probeMarker)) []).log :=
  ⟨(c8_silent_close [Ev.tick 100000] [] 1 chunkEmpty (by decide)
      (Or.inl (by decide))).2.2.2.2.1,
   (c8_silent_close [Ev.tick 100000] [] 7 probeMarker (by decide)
      (Or.inr (by decide))).2.2.2.2.2.2.1 100000⟩

/-- C1 as stated is false: task 1 initiates at time 100000 and task 2's
handling starts at that same instant, both within `COOLDOWN` of the
initiation and while `inFlight` is still true; yet because the
no-deployment path releases `inFlight` early and task 2's health check only
resolves after the cooldown has expired, task 2 still reaches the
Deployment Controller calls. -/
theorem c1_cex : ¬ claimC1 := fun h =>
  (h cex1pre cex1post 1 2 100000 chunkB chunkB (by decide) (by decide)
    (Or.inl (by decide)) (by decide) (by decide) 160000) (by decide)

/-- C1 (amended): once a connection has initiated a wake (initiation entry
with timestamp `tA`), no later connection whose cooldown check executes
within `COOLDOWN` of `tA`, or while `inFlight` is still true, ever reaches
the Deployment Controller calls — the condition is on the moment the check
runs, not on the moment the connection's handling starts. -/
theorem c1_amended (pre post : List Ev) (tidA tidB tA : Nat)
    (r : FetchResult HealthBody)
    (hA : Entry.initiation tidA tA ∈ (runEvs pre).log)
    (hcond : (runEvs pre).now - tA < COOLDOWN_MS ∨ (runEvs pre).restarting = true)
    (hph : (runEvs pre).tasks tidB = some Phase.awaitingHealth) :
    (∀ t, Entry.initiation tidB t ∉
      (runFrom (step (runEvs pre) (.healthRes tidB r)) post).log) ∧
    (∀ t, Entry.restartCall tidB t ∉
      (runFrom (step (runEvs pre) (.healthRes tidB r)) post).log) := by
  have hinv := inv_run pre
  have hcond2 : (runEvs pre).restarting = true ∨
      (runEvs pre).now - (runEvs pre).lastWake < COOLDOWN_MS := by
    rcases hcond with hlt | hr
    · right
      have htA : tA ≤ (runEvs pre).lastWake := hinv.init_le_lw tidA tA hA
      exact lt_of_le_of_lt (Nat.sub_le_sub_left htA (runEvs pre).now) hlt
    · exact Or.inl hr
  exact no_calls_after_check (runEvs pre) tidB r post hinv hph hcond2

/-- Witness for C1 (amended): task 1 initiated at time 100000 and task 2's
check runs while the lock is held, so task 2 never initiates. -/
theorem c1_amended_witness :
    Entry.initiation 2 100000 ∉
      (runFrom (step (runEvs [Ev.tick 100000, Ev.conn 1 chunkA, Ev.healthRes 1 hDown,
        Ev.conn 2 chunkB]) (.healthRes 2 hDown)) [Ev.tick 60000]).log :=
  (c1_amended [Ev.tick 100000, Ev.conn 1 chunkA, Ev.healthRes 1 hDown, Ev.conn 2 chunkB]
    [Ev.tick 60000] 1 2 100000 hDown (by decide) (Or.inl (by decide))
    (by decide)).1 100000

/-- C2 as stated is false: after the no-deployment wake attempt by task 1,
`inFlight` is indeed reset immediately, but a second connection handled
immediately afterwards is answered by the cooldown branch — `lastWakeAt`
still holds the attempt's timestamp — and does not reach step 3. -/
theorem c2_cex : ¬ claimC2 := by
  intro h
  have h2 := (h pre2 1 2 rEmpty hDown chunkB chunkB (by decide) rfl (by decide)
    rfl (by decide)).2
  exact absurd h2 (by decide)

/-- C2 (amended): after a wake attempt in which `latestDeployment` returns
none, `inFlight` becomes false immediately (not after `COOLDOWN`), but
`lastWakeAt` is not reset, so a second non-probe connection handled
immediately afterwards — while still within `COOLDOWN` of `lastWakeAt` —
receives the "starting" message instead of reaching step 3, and never
invokes the Deployment Controller. -/
theorem c2_amended (pre post : List Ev) (tidA tidB : Nat) (rA : FetchResult GqlBody)
    (rB : FetchResult HealthBody) (chunk tok : List Char)
    (hA : (runEvs pre).tasks tidA = some Phase.awaitingDeploy)
    (hrA : fetchLatestDeployment rA = Except.ok none)
    (hfresh : (runEvs pre).tasks tidB = none)
    (hrB : isServerRunning rB = false)
    (hcl : classify chunk = ConnAction.proceed tok)
    (hcool : (runEvs pre).now - (runEvs pre).lastWake < COOLDOWN_MS) :
    (step (runEvs pre) (Ev.deployRes tidA rA)).restarting = false ∧
    (step (runEvs pre) (Ev.deployRes tidA rA)).lastWake = (runEvs pre).lastWake ∧
    (step (step (step (runEvs pre) (Ev.deployRes tidA rA)) (Ev.conn tidB chunk))
        (Ev.healthRes tidB rB)).tasks tidB = some (Phase.done (some startingMsg)) ∧
    (∀ t, Entry.initiation tidB t ∉
      (runFrom (step (step (step (runEvs pre) (Ev.deployRes tidA rA))
        (Ev.conn tidB chunk)) (Ev.healthRes tidB rB)) post).log) := by
  have hinv := inv_run pre
  have hne : tidA ≠ tidB := by
    intro hh; rw [hh, hfresh] at hA; cases hA
  have hstep1 := step_deploy_none (runEvs pre) tidA rA hA hrA
  have hne2 : tidB ≠ tidA := fun hh => hne hh.symm
  have hs1B : (step (runEvs pre) (Ev.deployRes tidA rA)).tasks tidB = none := by
    rw [hstep1]; simpa [setTask, hne2] using hfresh
  have hinv1 : Inv (step (runEvs pre) (Ev.deployRes tidA rA)) :=
    inv_step _ _ hinv
  have hstep2 := step_conn_proceed (step (runEvs pre) (Ev.deployRes tidA rA))
    tidB chunk tok hs1B hcl
  have hs2B : (step (step (runEvs pre) (Ev.deployRes tidA rA)) (Ev.conn tidB chunk)).tasks
      tidB = some Phase.awaitingHealth := by
    rw [hstep2]; simp [setTask]
  have hinv2 : Inv (step (step (runEvs pre) (Ev.deployRes tidA rA)) (Ev.conn tidB chunk)) :=
    inv_step _ _ hinv1
  have hcool2 : (step (step (runEvs pre) (Ev.deployRes tidA rA))
        (Ev.conn tidB chunk)).restarting = true ∨
      (step (step (runEvs pre) (Ev.deployRes tidA rA)) (Ev.conn tidB chunk)).now -
        (step (step (runEvs pre) (Ev.deployRes tidA rA)) (Ev.conn tidB chunk)).lastWake
        < COOLDOWN_MS := by
    right
    rw [hstep2, hstep1]
    exact hcool
  have hstep3 := step_health_starting _ tidB rB hs2B hrB hcool2
  refine ⟨by rw [hstep1], by rw [hstep1], ?_, ?_⟩
  · rw [hstep3]; simp [setTask]
  · exact (no_calls_after_check _ tidB rB post hinv2 hs2B hcool2).1

/-- Witness for C2 (amended): task 1's attempt finds no deployment at time
100000; the lock is released at once, but task 2, handled immediately
afterwards, is answered "starting" and never initiates. -/
theorem c2_amended_witness :
    (step (runEvs pre2) (Ev.deployRes 1 rEmpty)).restarting = false ∧
    (step (step (step (runEvs pre2) (Ev.deployRes 1 rEmpty)) (Ev.conn 2 chunkB))
        (Ev.healthRes 2 hDown)).tasks 2 = some (Phase.done (some startingMsg)) :=
  ⟨(c2_amended pre2 [] 1 2 rEmpty hDown chunkB chunkB (by decide) rfl (by decide)
      rfl (by decide) (by decide)).1,
   (c2_amended pre2 [] 1 2 rEmpty hDown chunkB chunkB (by decide) rfl (by decide)
      rfl (by decide) (by decide)).2.2.1⟩

/-- C7 as stated is false: it bounds when the second connection arrives.
Task 1's wake finds no deployment at time 100000 and releases `inFlight`
early; task 2 arrives at 130000 — well within `COOLDOWN` of the attempt's
start, server down throughout — but its health check only resolves at
160000, when `restarting = false` and `160000 - 100000 < 60000` fails, so
task 2 initiates and calls the Deployment Controller. -/
theorem c7_cex : ¬ claimC7 := fun h =>
  (h pre2 [Ev.tick 30000] [Ev.tick 30000, Ev.healthRes 2 hDown] 1 2 rEmpty
    chunkB chunkB (by decide) rfl (by decide) (by decide) (by decide) 160000)
    (by decide)

/-- C7 (amended): the no-deployment path resets only `inFlight`;
`lastWakeAt` keeps the timestamp written at step-3 entry (witnessed by the
initiation entry at exactly `lastWake`), so any later connection whose
cooldown check runs within `COOLDOWN` of that timestamp while the server is
still down is answered by the cooldown branch with the "starting" message
and does not call the Deployment Controller — the bound is on when the
check runs, not on when the connection arrives. -/
theorem c7_frame_lastWake (pre mid : List Ev) (tidA tidB : Nat)
    (rA : FetchResult GqlBody) (rB : FetchResult HealthBody)
    (hA : (runEvs pre).tasks tidA = some Phase.awaitingDeploy)
    (hrA : fetchLatestDeployment rA = Except.ok none)
    (hphB : (runFrom (step (runEvs pre) (Ev.deployRes tidA rA)) mid).tasks tidB
      = some Phase.awaitingHealth)
    (hrB : isServerRunning rB = false)
    (htime : (runFrom (step (runEvs pre) (Ev.deployRes tidA rA)) mid).now -
      (runEvs pre).lastWake < COOLDOWN_MS) :
    Entry.initiation tidA ((runEvs pre).lastWake) ∈ (runEvs pre).log ∧
    (step (runEvs pre) (Ev.deployRes tidA rA)).restarting = false ∧
    (step (runEvs pre) (Ev.deployRes tidA rA)).lastWake = (runEvs pre).lastWake ∧
    (step (runFrom (step (runEvs pre) (Ev.deployRes tidA rA)) mid)
        (Ev.healthRes tidB rB)).tasks tidB = some (Phase.done (some startingMsg)) ∧
    (∀ t, Entry.initiation tidB t ∉
      (step (runFrom (step (runEvs pre) (Ev.deployRes tidA rA)) mid)
        (Ev.healthRes tidB rB)).log) := by
  have hinv := inv_run pre
  have hstep1 := step_deploy_none (runEvs pre) tidA rA hA hrA
  have hinv1 : Inv (step (runEvs pre) (Ev.deployRes tidA rA)) := inv_step _ _ hinv
  have hinv2 : Inv (runFrom (step (runEvs pre) (Ev.deployRes tidA rA)) mid) :=
    inv_fold _ mid hinv1
  have hlw1 : (step (runEvs pre) (Ev.deployRes tidA rA)).lastWake
      = (runEvs pre).lastWake := by rw [hstep1]
  have hlw2 : (runEvs pre).lastWake ≤
      (runFrom (step (runEvs pre) (Ev.deployRes tidA rA)) mid).lastWake := by
    rw [← hlw1]
    exact lastWake_mono_fold _ mid hinv1
  have hcool2 : (runFrom (step (runEvs pre) (Ev.deployRes tidA rA)) mid).restarting
        = true ∨
      (runFrom (step (runEvs pre) (Ev.deployRes tidA rA)) mid).now -
        (runFrom (step (runEvs pre) (Ev.deployRes tidA rA)) mid).lastWake
        < COOLDOWN_MS := by
    right
    exact lt_of_le_of_lt (Nat.sub_le_sub_left hlw2 _) htime
  have hstep3 := step_health_starting _ tidB rB hphB hrB hcool2
  refine ⟨hinv.active_entry tidA (by rw [hA]; rfl), by rw [hstep1], hlw1, ?_, ?_⟩
  · rw [hstep3]; simp [setTask]
  · intro t hmem
    rw [hstep3] at hmem
    exact (no_entries_of_awaitingHealth _ hinv2 tidB hphB).1 t hmem

/-- Witness for C7: task 1's attempt finds no deployment; `lastWakeAt`
still reads 100000, so task 2 (arriving via `mid`) is blocked. -/
theorem c7_witness :
    (step (runEvs pre2) (Ev.deployRes 1 rEmpty)).restarting = false ∧
    (step (runEvs pre2) (Ev.deployRes 1 rEmpty)).lastWake = (runEvs pre2).lastWake ∧
    (step (runFrom (step (runEvs pre2) (Ev.deployRes 1 rEmpty)) [Ev.conn 2 chunkB])
        (Ev.healthRes 2 hDown)).tasks 2 = some (Phase.done (some startingMsg)) :=
  ⟨(c7_frame_lastWake pre2 [Ev.conn 2 chunkB] 1 2 rEmpty hDown (by decide) rfl
      (by decide) rfl (by decide)).2.1,
   (c7_frame_lastWake pre2 [Ev.conn 2 chunkB] 1 2 rEmpty hDown (by decide) rfl
      (by decide) rfl (by decide)).2.2.1,
   (c7_frame_lastWake pre2 [Ev.conn 2 chunkB] 1 2 rEmpty hDown (by decide) rfl
      (by decide) rfl (by decide)).2.2.2.1⟩

/-- C4: in every wake attempt whose restart call returns — success or
failure alike — the deferred release is scheduled: the lock stays held with
exactly one pending timer at `now + COOLDOWN`, it remains held at every
later state whose clock has not reached that deadline, and at the first
step whose clock reaches the deadline the timer fires and `inFlight`
becomes false. -/
theorem c4_deferred_release (pre : List Ev) (tid : Nat) (dep : String)
    (r : FetchResult GqlBody) (b : Bool)
    (hph : (runEvs pre).tasks tid = some (Phase.awaitingRestart dep))
    (hr : restartDeployment r = Except.ok b) :
    (step (runEvs pre) (Ev.restartRes tid r)).restarting = true ∧
    (step (runEvs pre) (Ev.restartRes tid r)).timers
      = [(runEvs pre).now + COOLDOWN_MS] ∧
    (∀ mid, (runFrom (step (runEvs pre) (Ev.restartRes tid r)) mid).now
        < (runEvs pre).now + COOLDOWN_MS →
      (runFrom (step (runEvs pre) (Ev.restartRes tid r)) mid).restarting = true) ∧
    (∀ mid ev, (runFrom (step (runEvs pre) (Ev.restartRes tid r)) mid).now
        < (runEvs pre).now + COOLDOWN_MS →
      (runEvs pre).now + COOLDOWN_MS ≤
        (step (runFrom (step (runEvs pre) (Ev.restartRes tid r)) mid) ev).now →
      (step (runFrom (step (runEvs pre) (Ev.restartRes tid r)) mid) ev).restarting
          = false ∧
      (step (runFrom (step (runEvs pre) (Ev.restartRes tid r)) mid) ev).timers = []) := by
  have hinv := inv_run pre
  have hstep := step_restart_done (runEvs pre) tid r dep b hph hr
  obtain ⟨hrr, hts⟩ := hinv.active_lock tid (by rw [hph]; rfl)
  have hother : ∀ tid', tid' ≠ tid → isActive ((runEvs pre).tasks tid') = false := by
    intro tid' htd
    cases hb : isActive ((runEvs pre).tasks tid') with
    | false => rfl
    | true =>
      exact absurd (hinv.active_unique tid' tid hb (by rw [hph]; rfl)) htd
  have hJ : Jlock ((runEvs pre).now + COOLDOWN_MS)
      (step (runEvs pre) (Ev.restartRes tid r)) := by
    refine ⟨by rw [hstep]; exact hrr, by rw [hstep, hts], ?_, ?_⟩
    · intro tid'
      rw [hstep]
      by_cases htd : tid' = tid
      · subst htd; simp [setTask, isActive]
      · simpa [setTask, htd] using hother tid' htd
    · rw [now_preserved (runEvs pre) (Ev.restartRes tid r) (fun d hd => by cases hd)]
      simp [COOLDOWN_MS]
  refine ⟨hJ.1, hJ.2.1, ?_, ?_⟩
  · intro mid hlt
    exact (jlock_fold _ _ mid hJ hlt).1
  · intro mid ev hlt hge
    exact jlock_cross _ _ ev (jlock_fold _ _ mid hJ hlt) hge

/-- Witness for C4: the wake attempt of task 1 calls restart successfully
at time 100000; the timer is pending for 160000, the lock is still held,
and the tick reaching 160000 releases it. -/
theorem c4_witness :
    (step (runEvs pre4) (Ev.restartRes 1 rEmpty)).timers = [160000] ∧
    (step (runEvs pre4) (Ev.restartRes 1 rEmpty)).restarting = true ∧
    (step (runFrom (step (runEvs pre4) (Ev.restartRes 1 rEmpty)) [])
        (Ev.tick 60000)).restarting = false :=
  ⟨(c4_deferred_release pre4 1 "d1" rEmpty true (by decide) rfl).2.1,
   (c4_deferred_release pre4 1 "d1" rEmpty true (by decide) rfl).1,
   ((c4_deferred_release pre4 1 "d1" rEmpty true (by decide) rfl).2.2.2 []
      (Ev.tick 60000) (by decide) (by decide)).1⟩

end McProxy
